import Mathlib

/-!
# Perturbation-theory Mandelbrot renderer (`src/main.c`)

A shallow embedding of the numerical kernel, the viewport events and the tile
scheduler of `main.c`, and the properties checked against it.

Conventions of the embedding.

* `double` and MPFR values are exact rationals (`ℚ`): every claim below is
  about the exact-arithmetic reading of the code, rounding is not modelled.
* A C `int` is an `Int`; where overflow can happen (`max_iter *= 2`) the result
  is wrapped to 32 bits two's complement.
* Arrays are functions from the index to the stored value.
* `while`/`for` loops are recursive functions over a fuel argument.  A loop
  that runs out of fuel while its condition still holds yields `none`; the
  theorems prove that the fuel handed to each loop suffices.
-/

namespace Perturbation

/-! ## Definitions -/

/-- Framebuffer width, `#define WIDTH 800`. -/
def WIDTH : Nat := 800

/-- Framebuffer height, `#define HEIGHT 600`. -/
def HEIGHT : Nat := 600

/-- Escape radius, `#define ESCAPE_RADIUS 1e6`. -/
def ESCAPE_RADIUS : ℚ := 1000000

/-- Squared escape radius, `const double escape_radius_sq = ESCAPE_RADIUS * ESCAPE_RADIUS;`. -/
def escape_radius_sq : ℚ := ESCAPE_RADIUS * ESCAPE_RADIUS

/-! ### Complex arithmetic on pairs (used to state the properties) -/

/-- Complex addition on (re, im) pairs. -/
def cadd (a b : ℚ × ℚ) : ℚ × ℚ := (a.1 + b.1, a.2 + b.2)

/-- Complex multiplication on (re, im) pairs. -/
def cmul (a b : ℚ × ℚ) : ℚ × ℚ := (a.1 * b.1 - a.2 * b.2, a.1 * b.2 + a.2 * b.1)

/-- Complex square. -/
def csq (a : ℚ × ℚ) : ℚ × ℚ := cmul a a

/-- Squared magnitude `re² + im²`. -/
def norm_sq (a : ℚ × ℚ) : ℚ := a.1 * a.1 + a.2 * a.2

/-- The Mandelbrot iteration `z_0 = 0`, `z_{k+1} = z_k² + c`. -/
def mandel (c : ℚ × ℚ) : Nat → ℚ × ℚ
  | 0 => (0, 0)
  | k + 1 => cadd (csq (mandel c k)) c

/-! ### The perturbation update of `render_test` (main.c 286–299) -/

/-- The new `(delta_z_re, delta_z_im)` computed by lines 286–299 from the
reference sample `(ref_re, ref_im)`, the old offset and `delta_c`. -/
def delta_step (ref_re ref_im delta_z_re delta_z_im delta_c_re delta_c_im : ℚ) : ℚ × ℚ :=
  let temp_re := 2 * (ref_re * delta_z_re - ref_im * delta_z_im)
  let temp_im := 2 * (ref_re * delta_z_im + ref_im * delta_z_re)
  let dz2_re := delta_z_re * delta_z_re - delta_z_im * delta_z_im
  let dz2_im := 2 * delta_z_re * delta_z_im
  (temp_re + dz2_re + delta_c_re, temp_im + dz2_im + delta_c_im)

/-! ### Viewport events of `main` -/

/-- The MPFR variables `center_re`, `center_im`, `scale` of `main`. -/
structure Viewport where
  center_re : ℚ
  center_im : ℚ
  scale : ℚ
deriving DecidableEq

/-- Zoom factor of a wheel event, `double zoom_value = (event.wheel.y > 0) ? 0.75 : 1.25;`. -/
def zoom_value (wheel_y : Int) : ℚ := if wheel_y > 0 then 3 / 4 else 5 / 4

/-- The `SDL_MOUSEWHEEL` case of `main` (lines 558–586) on the MPFR viewport,
with the cursor at `(mouse_x, mouse_y)`. -/
def mouse_wheel (wheel_y mouse_x mouse_y : Int) (v : Viewport) : Viewport :=
  let old_scale := v.scale
  let new_scale := v.scale * zoom_value wheel_y
  let tmp1_x : ℚ := (mouse_x : ℚ) - (WIDTH : ℚ) / 2
  let re_before := v.center_re + tmp1_x * old_scale
  let tmp1_y : ℚ := (mouse_y : ℚ) - (HEIGHT : ℚ) / 2
  let im_before := v.center_im + tmp1_y * old_scale
  { center_re := re_before - tmp1_x * new_scale
    center_im := im_before - tmp1_y * new_scale
    scale := v.scale * zoom_value wheel_y }

/-- World coordinate under the cursor column `mouse_x`:
`center_re + (mouse_x - WIDTH/2) * scale`. -/
def world_x (v : Viewport) (mouse_x : Int) : ℚ :=
  v.center_re + ((mouse_x : ℚ) - (WIDTH : ℚ) / 2) * v.scale

/-- World coordinate under the cursor row `mouse_y`:
`center_im + (mouse_y - HEIGHT/2) * scale`. -/
def world_y (v : Viewport) (mouse_y : Int) : ℚ :=
  v.center_im + ((mouse_y : ℚ) - (HEIGHT : ℚ) / 2) * v.scale

/-- The default viewport set up by `main` (lines 451–453). -/
def default_view : Viewport := { center_re := -3 / 4, center_im := 0, scale := 1 / 200 }

/-- Value of a C `int` expression after wrapping to 32 bits two's complement. -/
def wrap_int (v : Int) : Int := (v + 2 ^ 31) % 2 ^ 32 - 2 ^ 31

/-- Largest value `INT_MAX` of a 32-bit `int`. -/
def INT_MAX : Int := 2 ^ 31 - 1

/-- Initial iteration limit, `static int max_iter = 64;`. -/
def max_iter_init : Int := 64

/-- The two key events that change `max_iter`. -/
inductive IterEvent
  | page_up
  | page_down
deriving DecidableEq

/-- Effect of one key event on `max_iter` (lines 512 and 522–525):
`max_iter *= 2`, or `max_iter /= 2; if (max_iter <= 64) max_iter = 64;`. -/
def iter_key (max_iter : Int) : IterEvent → Int
  | IterEvent.page_up => wrap_int (max_iter * 2)
  | IterEvent.page_down =>
    let m := wrap_int (Int.tdiv max_iter 2)
    if m ≤ 64 then 64 else m

/-- Value of `max_iter` after a sequence of key events. -/
def iter_keys (max_iter : Int) (evs : List IterEvent) : Int :=
  evs.foldl iter_key max_iter

/-- No `max_iter *= 2` of the run leaves the range of `int`: every `page_up`
is applied to a value with `max_iter * 2 ≤ INT_MAX`. -/
def no_overflow : Int → List IterEvent → Bool
  | _, [] => true
  | m, IterEvent.page_up :: evs =>
    decide (m * 2 ≤ INT_MAX) && no_overflow (iter_key m IterEvent.page_up) evs
  | m, IterEvent.page_down :: evs => no_overflow (iter_key m IterEvent.page_down) evs

/-! ### The reference orbit: `render_compute_orbit` (main.c 67–115) -/

/-- How a loop of `render_compute_orbit` was left: its condition failed
(`completed`), the `break` of line 111 (`escaped`), or the `return` of line 87
(`cancelled`). -/
inductive LoopExit
  | completed
  | escaped
  | cancelled
deriving DecidableEq

/-- Local state of `render_compute_orbit`: the MPFR iterate `z`, the two output
buffers and the counter `iter`. -/
structure OrbitState where
  z_re : ℚ
  z_im : ℚ
  orbit_re : Nat → ℚ
  orbit_im : Nat → ℚ
  iter : Nat

/-- The `while (iter < max_iter)` loop of `render_compute_orbit` (lines 84–114).
`g_generation k` is the value `atomic_load (&g_generation)` returns in the
iteration with `iter = k`; the threshold is
`escape_radius_sq * escape_radius_sq` (line 80). -/
def render_compute_orbit_loop (max_iter : Int) (center_re center_im : ℚ) (generation : Int)
    (g_generation : Nat → Int) : Nat → OrbitState → Option (OrbitState × LoopExit)
  | 0, s => if (s.iter : Int) < max_iter then none else some (s, LoopExit.completed)
  | fuel + 1, s =>
    if (s.iter : Int) < max_iter then
      if generation ≠ g_generation s.iter then some (s, LoopExit.cancelled)
      else
        let orbit_re := Function.update s.orbit_re s.iter s.z_re
        let orbit_im := Function.update s.orbit_im s.iter s.z_im
        let temp_re := s.z_re * s.z_re - s.z_im * s.z_im
        let temp_im := s.z_re * s.z_im * 2
        let z_re := temp_re + center_re
        let z_im := temp_im + center_im
        if z_re * z_re + z_im * z_im > escape_radius_sq * escape_radius_sq then
          some ({ z_re := z_re, z_im := z_im, orbit_re := orbit_re, orbit_im := orbit_im,
                  iter := s.iter }, LoopExit.escaped)
        else
          render_compute_orbit_loop max_iter center_re center_im generation g_generation fuel
            { z_re := z_re, z_im := z_im, orbit_re := orbit_re, orbit_im := orbit_im,
              iter := s.iter + 1 }
    else some (s, LoopExit.completed)

/-- Function `render_compute_orbit`: `z = 0`, `iter = 0`, then the loop.  Every pass
that does not leave the loop increments `iter`, so `max_iter` passes of fuel
are enough. -/
def render_compute_orbit (max_iter : Int) (center_re center_im : ℚ)
    (orbit_re orbit_im : Nat → ℚ) (generation : Int) (g_generation : Nat → Int) :
    Option (OrbitState × LoopExit) :=
  render_compute_orbit_loop max_iter center_re center_im generation g_generation
    max_iter.toNat
    { z_re := 0, z_im := 0, orbit_re := orbit_re, orbit_im := orbit_im, iter := 0 }

/-- Number of samples the loop stored: one per pass that got past the
generation check, i.e. `iter` passes, plus the pass that ended in `break`. -/
def samples_written (r : OrbitState × LoopExit) : Nat :=
  if r.2 = LoopExit.escaped then r.1.iter + 1 else r.1.iter

/-- Record `struct orbit_work` (the unused `scale` field included). -/
structure orbit_work where
  center_re : ℚ
  center_im : ℚ
  scale : ℚ
  orbit_re : Nat → ℚ
  orbit_im : Nat → ℚ
  generation : Int

/-- The globals published by the orbit thread. -/
structure OrbitGlobals where
  g_orbit_re : Nat → ℚ
  g_orbit_im : Nat → ℚ
  g_orbit_amount : Int
  g_orbit_ready : Bool

/-- Effect of `memcpy (dst, src, n * sizeof (double))` on arrays of doubles. -/
def memcpy (dst src : Nat → ℚ) (n : Nat) : Nat → ℚ :=
  fun i => if i < n then src i else dst i

/-- Function `render_compute_orbit_thread` (lines 117–140): run the orbit, then publish
unless the generation moved (`g_generation_after` is the value loaded at line
125).  The freed work item is not part of the state. -/
def render_compute_orbit_thread (max_iter : Int) (work : orbit_work)
    (g_generation : Nat → Int) (g_generation_after : Int) (G : OrbitGlobals) :
    Option OrbitGlobals :=
  match render_compute_orbit max_iter work.center_re work.center_im work.orbit_re
      work.orbit_im work.generation g_generation with
  | none => none
  | some (s, _) =>
    if work.generation ≠ g_generation_after then some G
    else
      some { g_orbit_re := memcpy G.g_orbit_re s.orbit_re max_iter.toNat
             g_orbit_im := memcpy G.g_orbit_im s.orbit_im max_iter.toNat
             g_orbit_amount := max_iter
             g_orbit_ready := true }

/-- A buffer returned by `calloc`: all zero. -/
def calloc : Nat → ℚ := fun _ => 0

/-- The orbit work item `main` enqueues for centre `(3, 0)` under generation 1
(lines 609–618). -/
def work_center_3 : orbit_work :=
  { center_re := 3, center_im := 0, scale := 1 / 200, orbit_re := calloc, orbit_im := calloc,
    generation := 1 }

/-- The orbit globals before the first publication (`calloc`ed at lines 457–458). -/
def globals_init : OrbitGlobals :=
  { g_orbit_re := calloc, g_orbit_im := calloc, g_orbit_amount := 0, g_orbit_ready := false }

/-! ### The perturbation renderer: `render_test` (main.c 156–412) -/

/-- Record `struct render_work`.  The scheduler only produces non-negative `x`, `y`,
`tile` and `step`, so these are naturals. -/
structure render_work where
  x : Nat
  y : Nat
  tile : Nat
  step : Nat
  samples : Int
  scale : ℚ
  orbit_re : Nat → ℚ
  orbit_im : Nat → ℚ
  orbit_amount : Int
  generation : Int

/-- Per-pixel locals of `render_test`: `delta_z`, the counter `iter`, the
reference index `iter_orbit` and `zn2` (`none` while it is uninitialised). -/
structure PixelState where
  delta_z_re : ℚ
  delta_z_im : ℚ
  iter : Int
  iter_orbit : Nat
  zn2 : Option ℚ
deriving DecidableEq

/-- The `while (iter < max_iter)` loop of lines 284–326 for one pixel with
offset `delta_c`. -/
def pixel_loop (max_iter : Int) (work : render_work) (delta_c_re delta_c_im : ℚ) :
    Nat → PixelState → Option PixelState
  | 0, s => if s.iter < max_iter then none else some s
  | fuel + 1, s =>
    if s.iter < max_iter then
      let ref_re := work.orbit_re s.iter_orbit
      let ref_im := work.orbit_im s.iter_orbit
      let d := delta_step ref_re ref_im s.delta_z_re s.delta_z_im delta_c_re delta_c_im
      if (s.iter_orbit : Int) + 1 > work.orbit_amount - 1 then
        pixel_loop max_iter work delta_c_re delta_c_im fuel
          { delta_z_re := d.1, delta_z_im := d.2, iter := s.iter + 1,
            iter_orbit := s.iter_orbit, zn2 := s.zn2 }
      else
        let iter_orbit := s.iter_orbit + 1
        let z_re := work.orbit_re iter_orbit + d.1
        let z_im := work.orbit_im iter_orbit + d.2
        if z_re * z_re + z_im * z_im > escape_radius_sq then
          some { delta_z_re := d.1, delta_z_im := d.2, iter := s.iter,
                 iter_orbit := iter_orbit, zn2 := s.zn2 }
        else
          let zn2 := z_re * z_re + z_im * z_im
          if d.1 * d.1 + d.2 * d.2 > z_re * z_re + z_im * z_im then
            pixel_loop max_iter work delta_c_re delta_c_im fuel
              { delta_z_re := z_re, delta_z_im := z_im, iter := s.iter + 1,
                iter_orbit := 0, zn2 := some zn2 }
          else
            pixel_loop max_iter work delta_c_re delta_c_im fuel
              { delta_z_re := d.1, delta_z_im := d.2, iter := s.iter + 1,
                iter_orbit := iter_orbit, zn2 := some zn2 }
    else some s

/-- Offset `dx = (x - WIDTH / 2.0) * scale` (line 264). -/
def pixel_dx (work : render_work) (x : Nat) : ℚ := ((x : ℚ) - (WIDTH : ℚ) / 2) * work.scale

/-- Offset `dy = (y - HEIGHT / 2.0) * scale` (line 265). -/
def pixel_dy (work : render_work) (y : Nat) : ℚ := ((y : ℚ) - (HEIGHT : ℚ) / 2) * work.scale

/-- Lines 264–327 for the pixel `(x, y)`: `iter` is loaded from the iteration
cache (an `int64_t` narrowed to `int`) and the loop runs only if it is `-1`.
Every pass that stays in the loop increments `iter`, so `max_iter - iter`
passes of fuel are enough. -/
def pixel_iterate (max_iter : Int) (work : render_work) (pixels_done : Nat → Int)
    (x y : Nat) : Option PixelState :=
  let iter := wrap_int (pixels_done (y * WIDTH + x))
  let s0 : PixelState :=
    { delta_z_re := 0, delta_z_im := 0, iter := iter, iter_orbit := 0, zn2 := none }
  if iter = -1 then
    pixel_loop max_iter work (pixel_dx work x) (pixel_dy work y) (max_iter - iter).toNat s0
  else some s0

/-- Lines 368–388: opaque black when `iter == max_iter`, else the escape
colouring.  `escape_color iter zn2` stands for the floating-point computation
of lines 374–387 (`log2`, `sqrt`, `floor`, palette interpolation). -/
def pixel_color (escape_color : Int → Option ℚ → Nat) (max_iter : Int) (s : PixelState) : Nat :=
  if s.iter = max_iter then 0xFF000000 else escape_color s.iter s.zn2

/-- One store `pixels[y * WIDTH + x] = color`. -/
structure PixelWrite where
  x : Nat
  y : Nat
  color : Nat
deriving DecidableEq

/-- What the body of a `for` loop does next: fall through to the increment,
`break`, or leave the whole function (`goto clean`). -/
inductive Flow
  | next
  | brk
  | abort
deriving DecidableEq

/-- The C loop `for (i = i0; i < bound; i += stride) body`, threading a state.
The result is `(aborted, state)`; `none` when the fuel runs out while
`i < bound` still holds. -/
def for_loop {σ : Type} (bound stride : Nat) (body : Nat → σ → Option (Flow × σ)) :
    Nat → Nat → σ → Option (Bool × σ)
  | 0, i, s => if i < bound then none else some (false, s)
  | fuel + 1, i, s =>
    if i < bound then
      match body i s with
      | none => none
      | some (Flow.next, s') => for_loop bound stride body fuel (i + stride) s'
      | some (Flow.brk, s') => some (false, s')
      | some (Flow.abort, s') => some (true, s')
    else some (false, s)

/-- The `step_x` loop of lines 397–403, appending its stores to the trace. -/
def fill_row (work : render_work) (x y step_y color : Nat) (acc : List PixelWrite) :
    Option (Bool × List PixelWrite) :=
  for_loop work.step 1
    (fun step_x acc =>
      if x + step_x ≥ WIDTH then some (Flow.brk, acc)
      else some (Flow.next, acc ++ [{ x := x + step_x, y := y + step_y, color := color }]))
    work.step 0 acc

/-- The `step_y` loop of lines 392–404. -/
def fill_block (work : render_work) (x y color : Nat) (acc : List PixelWrite) :
    Option (Bool × List PixelWrite) :=
  for_loop work.step 1
    (fun step_y acc =>
      if y + step_y ≥ HEIGHT then some (Flow.brk, acc)
      else
        match fill_row work x y step_y color acc with
        | none => none
        | some (_, acc') => some (Flow.next, acc'))
    work.step 0 acc

/-- The `delta_x` loop of lines 254–407 for the row `y = work->y + delta_y`.
`g_generation delta_y delta_x` is the value `atomic_load (&g_generation)`
returns at the check of line 256 in that iteration. -/
def render_row (escape_color : Int → Option ℚ → Nat) (max_iter : Int)
    (g_generation : Nat → Nat → Int) (pixels_done : Nat → Int) (work : render_work)
    (delta_y : Nat) (acc : List PixelWrite) : Option (Bool × List PixelWrite) :=
  for_loop work.tile work.step
    (fun delta_x acc =>
      if work.generation ≠ g_generation delta_y delta_x then some (Flow.abort, acc)
      else
        let x := work.x + delta_x
        if x ≥ WIDTH then some (Flow.brk, acc)
        else
          match pixel_iterate max_iter work pixels_done x (work.y + delta_y) with
          | none => none
          | some s =>
            match fill_block work x (work.y + delta_y)
                (pixel_color escape_color max_iter s) acc with
            | none => none
            | some (_, acc') => some (Flow.next, acc'))
    work.tile 0 acc

/-- Function `render_test` (lines 247–411): the list of stores into `pixels`, in program
order.  The function never stores into `pixels_done`. -/
def render_test (escape_color : Int → Option ℚ → Nat) (max_iter : Int)
    (g_generation : Nat → Nat → Int) (pixels_done : Nat → Int) (work : render_work) :
    Option (List PixelWrite) :=
  match for_loop work.tile work.step
      (fun delta_y acc =>
        if work.y + delta_y ≥ HEIGHT then some (Flow.brk, acc)
        else
          match render_row escape_color max_iter g_generation pixels_done work delta_y acc with
          | none => none
          | some (true, acc') => some (Flow.abort, acc')
          | some (false, acc') => some (Flow.next, acc'))
      work.tile 0 [] with
  | none => none
  | some (_, acc) => some acc

/-- The shared arrays `pixels` (framebuffer) and `pixels_done` (iteration cache). -/
structure FrameState where
  pixels : Nat → Nat
  pixels_done : Nat → Int

/-- Apply a trace of stores to the framebuffer. -/
def store_all (pixels : Nat → Nat) (trace : List PixelWrite) : Nat → Nat :=
  trace.foldl (fun p w => Function.update p (w.y * WIDTH + w.x) w.color) pixels

/-- State after a run of `render_test` on the shared arrays. -/
def render_test_run (escape_color : Int → Option ℚ → Nat) (max_iter : Int)
    (g_generation : Nat → Nat → Int) (work : render_work) (st : FrameState) :
    Option FrameState :=
  match render_test escape_color max_iter g_generation st.pixels_done work with
  | none => none
  | some trace => some { pixels := store_all st.pixels trace, pixels_done := st.pixels_done }

/-- The iteration cache as `main` leaves it at lines 675–676: all `-1`. -/
def cache_reset : Nat → Int := fun _ => -1

/-- A render task for centre `(0, 0)` (whose reference orbit is constantly 0)
at scale `1/100`, tile origin `(0, 0)`, as `main` fills it at lines 696–709. -/
def work_origin (tile step : Nat) (generation : Int) : render_work :=
  { x := 0, y := 0, tile := tile, step := step, samples := 1, scale := 1 / 100,
    orbit_re := calloc, orbit_im := calloc, orbit_amount := 64, generation := generation }

/-! ### The tile scheduler of `main` (lines 678–713) -/

/-- Step schedule, `const int steps[] = { 16, 4, 1 };`. -/
def steps : List Nat := [16, 4, 1]

/-- Tile size of a step, `int tile = step; if (tile < 8) tile = 8;` (lines 686–688). -/
def tile_of_step (step : Nat) : Nat := if step < 8 then 8 else step

/-- The work item filled at lines 693–709 for the tile at `(x, y)`. -/
def make_work (orbit_re orbit_im : Nat → ℚ) (orbit_amount : Int) (scale : ℚ) (generation : Int)
    (tile step x y : Nat) : render_work :=
  { x := x, y := y, tile := tile, step := step, samples := 1, scale := scale,
    orbit_re := orbit_re, orbit_im := orbit_im, orbit_amount := orbit_amount,
    generation := generation }

/-- The `x` loop of line 691 for the tile row `y`: one task per tile, appended
to the queue. -/
def enqueue_row (orbit_re orbit_im : Nat → ℚ) (orbit_amount : Int) (scale : ℚ)
    (generation : Int) (tile step y : Nat) (queue : List render_work) :
    Option (Bool × List render_work) :=
  for_loop WIDTH tile
    (fun x queue =>
      some (Flow.next,
        queue ++ [make_work orbit_re orbit_im orbit_amount scale generation tile step x y]))
    WIDTH 0 queue

/-- The body of the `steps` loop for one `step` (lines 684–712): the tasks of
that pass in queue order. -/
def enqueue_pass (orbit_re orbit_im : Nat → ℚ) (orbit_amount : Int) (scale : ℚ)
    (generation : Int) (step : Nat) (queue : List render_work) :
    Option (Bool × List render_work) :=
  for_loop HEIGHT (tile_of_step step)
    (fun y queue =>
      match enqueue_row orbit_re orbit_im orbit_amount scale generation
          (tile_of_step step) step y queue with
      | none => none
      | some (_, queue') => some (Flow.next, queue'))
    HEIGHT 0 queue

/-- The stores of a list of tasks run to completion one after the other, each
under a generation that stays at `g_generation` and over the same iteration
cache (no task stores into it).  The pool runs the tasks in some interleaving
of these per-task traces. -/
def run_tasks (escape_color : Int → Option ℚ → Nat) (max_iter : Int) (g_generation : Int)
    (pixels_done : Nat → Int) : List render_work → Option (List PixelWrite)
  | [] => some []
  | work :: rest =>
    match render_test escape_color max_iter (fun _ _ => g_generation) pixels_done work,
        run_tasks escape_color max_iter g_generation pixels_done rest with
    | some trace, some trace' => some (trace ++ trace')
    | _, _ => none

/-! ### Closed forms used in the proofs -/

/-- The values of the loop variable for which
`for (i = i0; i < bound; i += stride) { if (base + i >= limit) break; ... }`
runs its body past the `break`. -/
def loop_indices (bound stride base limit : Nat) : Nat → Nat → List Nat
  | 0, _ => []
  | fuel + 1, i =>
    if i < bound then
      if limit ≤ base + i then []
      else i :: loop_indices bound stride base limit fuel (i + stride)
    else []

/-- The colour `render_test` computes for the pixel `(x, y)` (0 if the
per-pixel loop did not return, which `pixel_iterate_returns` excludes). -/
def pixel_color_at (escape_color : Int → Option ℚ → Nat) (max_iter : Int)
    (pixels_done : Nat → Int) (work : render_work) (x y : Nat) : Nat :=
  match pixel_iterate max_iter work pixels_done x y with
  | some s => pixel_color escape_color max_iter s
  | none => 0

/-- The stores of lines 392–404 for the sample pixel `(x, y)`: the
`step × step` block clipped at the framebuffer bounds. -/
def block_writes (step x y color : Nat) : List PixelWrite :=
  (loop_indices step 1 y HEIGHT step 0).flatMap fun step_y =>
    (loop_indices step 1 x WIDTH step 0).flatMap fun step_x =>
      [{ x := x + step_x, y := y + step_y, color := color }]

/-- The stores of an uncancelled task: one block per sample pixel. -/
def task_writes (color : Nat → Nat → Nat) (work : render_work) : List PixelWrite :=
  (loop_indices work.tile work.step work.y HEIGHT work.tile 0).flatMap fun delta_y =>
    (loop_indices work.tile work.step work.x WIDTH work.tile 0).flatMap fun delta_x =>
      block_writes work.step (work.x + delta_x) (work.y + delta_y)
        (color (work.x + delta_x) (work.y + delta_y))

/-! ### The per-pixel loop with its reads of the reference orbit -/

/-- The loop of lines 284–326 as in `pixel_loop`, also recording, in program
order, every index at which `work->orbit_re` and `work->orbit_im` are read:
`iter_orbit` at lines 286–287 and the incremented `iter_orbit` at lines
309–310. -/
def pixel_loop_reads (max_iter : Int) (work : render_work) (delta_c_re delta_c_im : ℚ) :
    Nat → PixelState → List Nat → Option (PixelState × List Nat)
  | 0, s, reads => if s.iter < max_iter then none else some (s, reads)
  | fuel + 1, s, reads =>
    if s.iter < max_iter then
      let ref_re := work.orbit_re s.iter_orbit
      let ref_im := work.orbit_im s.iter_orbit
      let d := delta_step ref_re ref_im s.delta_z_re s.delta_z_im delta_c_re delta_c_im
      if (s.iter_orbit : Int) + 1 > work.orbit_amount - 1 then
        pixel_loop_reads max_iter work delta_c_re delta_c_im fuel
          { delta_z_re := d.1, delta_z_im := d.2, iter := s.iter + 1,
            iter_orbit := s.iter_orbit, zn2 := s.zn2 }
          (reads ++ [s.iter_orbit])
      else
        let iter_orbit := s.iter_orbit + 1
        let z_re := work.orbit_re iter_orbit + d.1
        let z_im := work.orbit_im iter_orbit + d.2
        if z_re * z_re + z_im * z_im > escape_radius_sq then
          some ({ delta_z_re := d.1, delta_z_im := d.2, iter := s.iter,
                  iter_orbit := iter_orbit, zn2 := s.zn2 },
                reads ++ [s.iter_orbit, iter_orbit])
        else
          let zn2 := z_re * z_re + z_im * z_im
          if d.1 * d.1 + d.2 * d.2 > z_re * z_re + z_im * z_im then
            pixel_loop_reads max_iter work delta_c_re delta_c_im fuel
              { delta_z_re := z_re, delta_z_im := z_im, iter := s.iter + 1,
                iter_orbit := 0, zn2 := some zn2 }
              (reads ++ [s.iter_orbit, iter_orbit])
          else
            pixel_loop_reads max_iter work delta_c_re delta_c_im fuel
              { delta_z_re := d.1, delta_z_im := d.2, iter := s.iter + 1,
                iter_orbit := iter_orbit, zn2 := some zn2 }
              (reads ++ [s.iter_orbit, iter_orbit])
    else some (s, reads)

/-- Lines 264–327 for the pixel `(x, y)` as in `pixel_iterate`, with the list
of reference indices read. -/
def pixel_iterate_reads (max_iter : Int) (work : render_work) (pixels_done : Nat → Int)
    (x y : Nat) : Option (PixelState × List Nat) :=
  let iter := wrap_int (pixels_done (y * WIDTH + x))
  let s0 : PixelState :=
    { delta_z_re := 0, delta_z_im := 0, iter := iter, iter_orbit := 0, zn2 := none }
  if iter = -1 then
    pixel_loop_reads max_iter work (pixel_dx work x) (pixel_dy work y)
      (max_iter - iter).toNat s0 []
  else some (s0, [])

/-! ### Concrete inputs used in the evaluations -/

/-- The shared arrays as `main` leaves them at lines 665–676, before the tasks
of a generation are enqueued: framebuffer 0, iteration cache `-1`. -/
def frame_reset : FrameState := { pixels := fun _ => 0, pixels_done := cache_reset }

/-- A render task over the reference orbit of centre `(1000001, 0)` cut at its
`R^4` escape: `Z_0 = 0`, `Z_1 = 1000001`, and `|Z_2|^2 > R^4`, so the orbit has
the two samples `Z_0, Z_1`.  Scale 1, tile origin `(392, 296)`. -/
def work_short_orbit : render_work :=
  { x := 392, y := 296, tile := 8, step := 1, samples := 1, scale := 1,
    orbit_re := fun k => if k = 1 then 1000001 else 0, orbit_im := calloc,
    orbit_amount := 2, generation := 1 }

/-! ## Theorems -/

/-! ### C1: the perturbation update -/

/-- C1: one perturbation update computes `dZ' = 2*Z*dZ + dZ^2 + dc` in complex
arithmetic, and if `Z' = Z^2 + c` then `Z' + dZ' = (Z + dZ)^2 + (c + dc)`. -/
theorem delta_step_perturbation (Z dZ c dc Z' : ℚ × ℚ) (hZ : Z' = cadd (csq Z) c) :
    delta_step Z.1 Z.2 dZ.1 dZ.2 dc.1 dc.2
        = cadd (cadd (cmul (2, 0) (cmul Z dZ)) (csq dZ)) dc
      ∧ cadd Z' (delta_step Z.1 Z.2 dZ.1 dZ.2 dc.1 dc.2)
        = cadd (csq (cadd Z dZ)) (cadd c dc) := by
  subst hZ
  constructor
  · simp only [delta_step, cadd, cmul, csq, Prod.mk.injEq]
    constructor <;> ring
  · simp only [delta_step, cadd, cmul, csq, Prod.mk.injEq]
    constructor <;> ring

/-- Witness of C1 at `Z = 1 + 2i`, `dZ = 1/2 - i`, `c = 3 + i`, `dc = 1/4 i`. -/
theorem delta_step_perturbation_witness :
    ((-3 + 3, 4 + 1) : ℚ × ℚ) = cadd (csq (1, 2)) (3, 1)
      ∧ cadd ((-3 + 3, 4 + 1) : ℚ × ℚ) (delta_step 1 2 (1 / 2) (-1) 0 (1 / 4))
        = cadd (csq (cadd (1, 2) (1 / 2, -1))) (cadd (3, 1) (0, 1 / 4)) :=
  ⟨by norm_num [cadd, csq, cmul],
   (delta_step_perturbation (1, 2) (1 / 2, -1) (3, 1) (0, 1 / 4) (-3 + 3, 4 + 1)
      (by norm_num [cadd, csq, cmul])).2⟩

/-! ### C6, C7: zoom at the cursor -/

/-- C6: for every viewport with `scale > 0`, every cursor and either wheel
direction, the wheel event sets `scale` to `scale * zoom_value` and keeps the
world point under the cursor fixed, so it moves by at most the new scale. -/
theorem mouse_wheel_anchor (v : Viewport) (wheel_y mouse_x mouse_y : Int)
    (hs : 0 < v.scale) :
    (zoom_value wheel_y = 3 / 4 ∨ zoom_value wheel_y = 5 / 4)
      ∧ (mouse_wheel wheel_y mouse_x mouse_y v).scale = v.scale * zoom_value wheel_y
      ∧ world_x (mouse_wheel wheel_y mouse_x mouse_y v) mouse_x = world_x v mouse_x
      ∧ world_y (mouse_wheel wheel_y mouse_x mouse_y v) mouse_y = world_y v mouse_y
      ∧ |world_x (mouse_wheel wheel_y mouse_x mouse_y v) mouse_x - world_x v mouse_x|
          ≤ (mouse_wheel wheel_y mouse_x mouse_y v).scale
      ∧ |world_y (mouse_wheel wheel_y mouse_x mouse_y v) mouse_y - world_y v mouse_y|
          ≤ (mouse_wheel wheel_y mouse_x mouse_y v).scale := by
  have hz : zoom_value wheel_y = 3 / 4 ∨ zoom_value wheel_y = 5 / 4 := by
    unfold zoom_value
    split <;> simp
  have hpos : 0 ≤ (mouse_wheel wheel_y mouse_x mouse_y v).scale := by
    simp only [mouse_wheel]
    rcases hz with h | h <;> rw [h] <;> linarith
  have hx : world_x (mouse_wheel wheel_y mouse_x mouse_y v) mouse_x = world_x v mouse_x := by
    simp only [world_x, mouse_wheel]
    ring
  have hy : world_y (mouse_wheel wheel_y mouse_x mouse_y v) mouse_y = world_y v mouse_y := by
    simp only [world_y, mouse_wheel]
    ring
  refine ⟨hz, rfl, hx, hy, ?_, ?_⟩
  · rw [hx, sub_self, abs_zero]
    exact hpos
  · rw [hy, sub_self, abs_zero]
    exact hpos

/-- Witness of C6: a wheel-up event with the cursor at (100, 50) on the
default viewport. -/
theorem mouse_wheel_anchor_witness :
    0 < default_view.scale
      ∧ world_x (mouse_wheel 1 100 50 default_view) 100 = world_x default_view 100 :=
  ⟨by norm_num [default_view],
   (mouse_wheel_anchor default_view 1 100 50 (by norm_num [default_view])).2.2.1⟩

/-- Doubling without overflow and halving both keep `max_iter ≥ 64`. -/
theorem iter_key_floor (m : Int) (e : IterEvent) (hm : 64 ≤ m) (hM : m ≤ INT_MAX)
    (ho : e = IterEvent.page_up → m * 2 ≤ INT_MAX) :
    64 ≤ iter_key m e ∧ iter_key m e ≤ INT_MAX := by
  cases e with
  | page_up =>
    have h := ho rfl
    simp only [iter_key, wrap_int, INT_MAX] at *
    omega
  | page_down =>
    simp only [iter_key, wrap_int, INT_MAX] at *
    have hq : Int.tdiv m 2 = m / 2 := Int.tdiv_eq_ediv (by omega) (by omega)
    rw [hq]
    split <;> omega

/-- C8 fails as stated: 25 doublings of the initial value overflow the 32-bit
`int` and leave `max_iter` below 64. -/
theorem max_iter_floor_counterexample :
    iter_keys max_iter_init (List.replicate 25 IterEvent.page_up) = -2147483648
      ∧ ¬ (64 ≤ iter_keys max_iter_init (List.replicate 25 IterEvent.page_up)) := by
  have h : iter_keys max_iter_init (List.replicate 25 IterEvent.page_up) = -2147483648 := by
    simp only [List.replicate, iter_keys, List.foldl, iter_key, max_iter_init, wrap_int]
    norm_num
  rw [h]
  exact ⟨rfl, by norm_num⟩

/-- C8 (amended): `max_iter ≥ 64` holds for the initial value and after every
finite sequence of doubling and halving events in which no doubling overflows
the `int`. -/
theorem max_iter_floor (evs : List IterEvent)
    (h : no_overflow max_iter_init evs = true) :
    64 ≤ max_iter_init ∧ 64 ≤ iter_keys max_iter_init evs := by
  have key : ∀ (l : List IterEvent) (m : Int), 64 ≤ m → m ≤ INT_MAX →
      no_overflow m l = true → 64 ≤ iter_keys m l := by
    intro l
    induction l with
    | nil => intro m hm _ _; simpa [iter_keys] using hm
    | cons e l ih =>
      intro m hm hM hov
      cases e with
      | page_up =>
        simp only [no_overflow, Bool.and_eq_true, decide_eq_true_eq] at hov
        have := iter_key_floor m IterEvent.page_up hm hM (fun _ => hov.1)
        simpa [iter_keys] using ih _ this.1 this.2 hov.2
      | page_down =>
        simp only [no_overflow] at hov
        have := iter_key_floor m IterEvent.page_down hm hM (fun h => by cases h)
        simpa [iter_keys] using ih _ this.1 this.2 hov
  exact ⟨by decide, key evs max_iter_init (by decide) (by decide) h⟩

/-- Witness of C8 (amended): three doublings and four halvings. -/
theorem max_iter_floor_witness :
    no_overflow max_iter_init
        [IterEvent.page_up, IterEvent.page_up, IterEvent.page_down, IterEvent.page_up,
          IterEvent.page_down, IterEvent.page_down, IterEvent.page_down] = true
      ∧ 64 ≤ iter_keys max_iter_init
        [IterEvent.page_up, IterEvent.page_up, IterEvent.page_down, IterEvent.page_up,
          IterEvent.page_down, IterEvent.page_down, IterEvent.page_down] :=
  ⟨by decide, (max_iter_floor _ (by decide)).2⟩

/-! ### C3, C4: the reference orbit -/

/-- Loop invariant of `render_compute_orbit_loop`: started with `z = z_iter`,
the samples below `iter` correct, the samples from `iter` on untouched and no
escape so far, the loop returns, and the same holds of what it returns, up to
`samples_written`. -/
theorem render_compute_orbit_loop_spec (max_iter : Int) (center_re center_im : ℚ)
    (generation : Int) (g_generation : Nat → Int) (buf_re buf_im : Nat → ℚ) :
    ∀ (fuel : Nat) (s : OrbitState),
      max_iter - s.iter ≤ fuel →
      (s.z_re, s.z_im) = mandel (center_re, center_im) s.iter →
      (∀ i, i < s.iter → (s.orbit_re i, s.orbit_im i) = mandel (center_re, center_im) i) →
      (∀ i, s.iter ≤ i → s.orbit_re i = buf_re i ∧ s.orbit_im i = buf_im i) →
      (∀ k, k < s.iter →
        ¬ norm_sq (mandel (center_re, center_im) (k + 1))
            > escape_radius_sq * escape_radius_sq) →
      ∃ r, render_compute_orbit_loop max_iter center_re center_im generation g_generation
            fuel s = some r
        ∧ (∀ i, i < samples_written r →
            (r.1.orbit_re i, r.1.orbit_im i) = mandel (center_re, center_im) i)
        ∧ (∀ i, samples_written r ≤ i → r.1.orbit_re i = buf_re i ∧ r.1.orbit_im i = buf_im i)
        ∧ (∀ k, norm_sq (mandel (center_re, center_im) (k + 1))
              > escape_radius_sq * escape_radius_sq → samples_written r ≤ k + 1) := by
  intro fuel
  induction fuel with
  | zero =>
    intro s hf hz hlo hhi hesc
    have hc : ¬ (s.iter : Int) < max_iter := by omega
    refine ⟨(s, LoopExit.completed), by simp [render_compute_orbit_loop, hc], ?_, ?_, ?_⟩
    · simpa [samples_written] using hlo
    · simpa [samples_written] using hhi
    · intro k hk
      by_contra hlt
      exact hesc k (by simp [samples_written] at hlt; omega) hk
  | succ fuel ih =>
    intro s hf hz hlo hhi hesc
    by_cases hc : (s.iter : Int) < max_iter
    · by_cases hg : generation ≠ g_generation s.iter
      · refine ⟨(s, LoopExit.cancelled), by simp [render_compute_orbit_loop, hc, hg], ?_, ?_, ?_⟩
        · simpa [samples_written] using hlo
        · simpa [samples_written] using hhi
        · intro k hk
          by_contra hlt
          exact hesc k (by simp [samples_written] at hlt; omega) hk
      · have hnext : mandel (center_re, center_im) (s.iter + 1)
            = (s.z_re * s.z_re - s.z_im * s.z_im + center_re,
               s.z_re * s.z_im * 2 + center_im) := by
          simp only [mandel, ← hz, cadd, csq, cmul, Prod.mk.injEq]
          constructor <;> ring_nf
        have hlo' : ∀ i, i < s.iter + 1 →
            (Function.update s.orbit_re s.iter s.z_re i,
              Function.update s.orbit_im s.iter s.z_im i)
              = mandel (center_re, center_im) i := by
          intro i hi
          by_cases hi' : i = s.iter
          · subst hi'; simpa using hz
          · simp only [Function.update_noteq hi']
            exact hlo i (by omega)
        have hhi' : ∀ i, s.iter + 1 ≤ i →
            Function.update s.orbit_re s.iter s.z_re i = buf_re i
              ∧ Function.update s.orbit_im s.iter s.z_im i = buf_im i := by
          intro i hi
          have hi' : i ≠ s.iter := by omega
          simp only [Function.update_noteq hi']
          exact hhi i (by omega)
        by_cases he : (s.z_re * s.z_re - s.z_im * s.z_im + center_re)
              * (s.z_re * s.z_re - s.z_im * s.z_im + center_re)
            + (s.z_re * s.z_im * 2 + center_im) * (s.z_re * s.z_im * 2 + center_im)
            > escape_radius_sq * escape_radius_sq
        · refine ⟨({ z_re := s.z_re * s.z_re - s.z_im * s.z_im + center_re
                     z_im := s.z_re * s.z_im * 2 + center_im
                     orbit_re := Function.update s.orbit_re s.iter s.z_re
                     orbit_im := Function.update s.orbit_im s.iter s.z_im
                     iter := s.iter }, LoopExit.escaped),
            by simp only [render_compute_orbit_loop, hc, hg, he, if_true, if_false],
            ?_, ?_, ?_⟩
          · simpa [samples_written] using hlo'
          · simpa [samples_written] using hhi'
          · intro k hk
            by_contra hlt
            exact hesc k (by simp [samples_written] at hlt; omega) hk
        · have hstep : render_compute_orbit_loop max_iter center_re center_im generation
                g_generation (fuel + 1) s
              = render_compute_orbit_loop max_iter center_re center_im generation
                g_generation fuel
                { z_re := s.z_re * s.z_re - s.z_im * s.z_im + center_re
                  z_im := s.z_re * s.z_im * 2 + center_im
                  orbit_re := Function.update s.orbit_re s.iter s.z_re
                  orbit_im := Function.update s.orbit_im s.iter s.z_im
                  iter := s.iter + 1 } := by
            simp only [render_compute_orbit_loop, hc, hg, he, if_true, if_false]
          rw [hstep]
          apply ih
          · simp only [Nat.cast_add, Nat.cast_one]; omega
          · exact hnext.symm
          · exact hlo'
          · exact hhi'
          · intro k hk
            by_cases hk' : k = s.iter
            · subst hk'
              rw [hnext]
              simpa [norm_sq] using he
            · exact hesc k (by simp only at hk; omega)
    · refine ⟨(s, LoopExit.completed), by simp [render_compute_orbit_loop, hc], ?_, ?_, ?_⟩
      · simpa [samples_written] using hlo
      · simpa [samples_written] using hhi
      · intro k hk
        by_contra hlt
        exact hesc k (by simp [samples_written] at hlt; omega) hk

/-- Which passes of the orbit loop get to their stores: whatever the loop
returns, the number of stored samples is pinned by the inputs.  Sample `i` is
stored exactly when `i < max_iter`, every generation check up to pass `i`
succeeded, and no earlier pass left through the `break`. -/
theorem render_compute_orbit_loop_stored (max_iter : Int) (center_re center_im : ℚ)
    (generation : Int) (g_generation : Nat → Int) :
    ∀ (fuel : Nat) (s : OrbitState) (r : OrbitState × LoopExit),
      render_compute_orbit_loop max_iter center_re center_im generation g_generation
          fuel s = some r →
      (s.z_re, s.z_im) = mandel (center_re, center_im) s.iter →
      (∀ i, i < s.iter → (i : Int) < max_iter) →
      (∀ j, j < s.iter → generation = g_generation j) →
      (∀ k, k < s.iter →
        ¬ norm_sq (mandel (center_re, center_im) (k + 1))
            > escape_radius_sq * escape_radius_sq) →
      ∀ i, i < samples_written r
        ↔ ((i : Int) < max_iter ∧ (∀ j, j ≤ i → generation = g_generation j)
            ∧ ∀ k, k < i →
                ¬ norm_sq (mandel (center_re, center_im) (k + 1))
                    > escape_radius_sq * escape_radius_sq) := by
  -- the three ways of leaving the loop at state `s`
  have hdone : ∀ (s : OrbitState), ¬ (s.iter : Int) < max_iter →
      (∀ i, i < s.iter → (i : Int) < max_iter) →
      (∀ j, j < s.iter → generation = g_generation j) →
      (∀ k, k < s.iter →
        ¬ norm_sq (mandel (center_re, center_im) (k + 1))
            > escape_radius_sq * escape_radius_sq) →
      ∀ i, i < samples_written (s, LoopExit.completed)
        ↔ ((i : Int) < max_iter ∧ (∀ j, j ≤ i → generation = g_generation j)
            ∧ ∀ k, k < i →
                ¬ norm_sq (mandel (center_re, center_im) (k + 1))
                    > escape_radius_sq * escape_radius_sq) := by
    intro s hc hA hB hC i
    simp only [samples_written, reduceCtorEq, if_false]
    constructor
    · intro hi
      exact ⟨hA i hi, fun j hj => hB j (by omega), fun k hk => hC k (by omega)⟩
    · rintro ⟨h1, _, _⟩
      omega
  intro fuel
  induction fuel with
  | zero =>
    intro s r hr _ hA hB hC
    by_cases hc : (s.iter : Int) < max_iter
    · simp [render_compute_orbit_loop, hc] at hr
    · simp only [render_compute_orbit_loop, hc, if_false, Option.some.injEq] at hr
      rw [← hr]
      exact hdone s hc hA hB hC
  | succ fuel ih =>
    intro s r hr hz hA hB hC
    by_cases hc : (s.iter : Int) < max_iter
    · by_cases hg : generation ≠ g_generation s.iter
      · simp only [render_compute_orbit_loop, hc, if_true] at hr
        rw [if_pos hg, Option.some.injEq] at hr
        rw [← hr]
        intro i
        simp only [samples_written, reduceCtorEq, if_false]
        constructor
        · intro hi
          exact ⟨hA i hi, fun j hj => hB j (by omega), fun k hk => hC k (by omega)⟩
        · rintro ⟨_, h2, _⟩
          by_contra hlt
          exact hg (h2 s.iter (by omega))
      · have hg' : generation = g_generation s.iter := not_not.mp hg
        have hnext : mandel (center_re, center_im) (s.iter + 1)
            = (s.z_re * s.z_re - s.z_im * s.z_im + center_re,
               s.z_re * s.z_im * 2 + center_im) := by
          simp only [mandel, ← hz, cadd, csq, cmul, Prod.mk.injEq]
          constructor <;> ring_nf
        by_cases he : (s.z_re * s.z_re - s.z_im * s.z_im + center_re)
              * (s.z_re * s.z_re - s.z_im * s.z_im + center_re)
            + (s.z_re * s.z_im * 2 + center_im) * (s.z_re * s.z_im * 2 + center_im)
            > escape_radius_sq * escape_radius_sq
        · simp only [render_compute_orbit_loop, hc, if_true] at hr
          rw [if_neg hg, if_pos he, Option.some.injEq] at hr
          rw [← hr]
          intro i
          simp only [samples_written, if_true]
          constructor
          · intro hi
            refine ⟨?_, fun j hj => ?_, fun k hk => hC k (by omega)⟩
            · by_cases hi' : i = s.iter
              · rw [hi']; exact hc
              · exact hA i (by omega)
            · by_cases hj' : j = s.iter
              · rw [hj']; exact hg'
              · exact hB j (by omega)
          · rintro ⟨_, _, h3⟩
            by_contra hlt
            apply h3 s.iter (by omega)
            rw [hnext]
            simpa [norm_sq] using he
        · simp only [render_compute_orbit_loop, hc, if_true] at hr
          rw [if_neg hg, if_neg he] at hr
          refine ih _ r hr hnext.symm ?_ ?_ ?_
          · intro i hi
            by_cases hi' : i = s.iter
            · rw [hi']; exact hc
            · exact hA i (by simp only at hi; omega)
          · intro j hj
            by_cases hj' : j = s.iter
            · rw [hj']; exact hg'
            · exact hB j (by simp only at hj; omega)
          · intro k hk
            by_cases hk' : k = s.iter
            · rw [hk', hnext]
              simpa [norm_sq] using he
            · exact hC k (by simp only at hk; omega)
    · simp only [render_compute_orbit_loop, hc, if_false, Option.some.injEq] at hr
      rw [← hr]
      exact hdone s hc hA hB hC

/-- C3: for every centre, `max_iter`, generation schedule and initial buffers,
`render_compute_orbit` returns.  The loop stores sample `i` exactly when
`i < max_iter`, every generation check up to pass `i` succeeded and no earlier
pass had `|z_{k+1}|^2 > R^4` (this fixes `samples_written` from the inputs);
every stored sample holds `z_i`, every other index is untouched, sample 0 is
stored as `(0, 0)` as soon as `max_iter ≥ 1` and the first generation check
succeeds, and nothing is stored after the first `k` with `|z_{k+1}|^2 > R^4`. -/
theorem render_compute_orbit_samples (max_iter : Int) (center_re center_im : ℚ)
    (orbit_re orbit_im : Nat → ℚ) (generation : Int) (g_generation : Nat → Int) :
    ∃ r, render_compute_orbit max_iter center_re center_im orbit_re orbit_im generation
          g_generation = some r
      ∧ (∀ i, i < samples_written r
          ↔ ((i : Int) < max_iter ∧ (∀ j, j ≤ i → generation = g_generation j)
              ∧ ∀ k, k < i →
                  ¬ norm_sq (mandel (center_re, center_im) (k + 1))
                      > escape_radius_sq * escape_radius_sq))
      ∧ (∀ i, i < samples_written r →
          (r.1.orbit_re i, r.1.orbit_im i) = mandel (center_re, center_im) i)
      ∧ (∀ i, samples_written r ≤ i →
          r.1.orbit_re i = orbit_re i ∧ r.1.orbit_im i = orbit_im i)
      ∧ (0 < samples_written r → (r.1.orbit_re 0, r.1.orbit_im 0) = (0, 0))
      ∧ ((0 : Int) < max_iter → generation = g_generation 0 →
          0 < samples_written r ∧ (r.1.orbit_re 0, r.1.orbit_im 0) = (0, 0))
      ∧ (∀ k, norm_sq (mandel (center_re, center_im) (k + 1))
            > escape_radius_sq * escape_radius_sq → samples_written r ≤ k + 1) := by
  obtain ⟨r, hr, h1, h2, h3⟩ :=
    render_compute_orbit_loop_spec max_iter center_re center_im generation g_generation
      orbit_re orbit_im max_iter.toNat
      { z_re := 0, z_im := 0, orbit_re := orbit_re, orbit_im := orbit_im, iter := 0 }
      (by simp only [Nat.cast_zero]; omega) (by simp [mandel])
      (by intro i hi; simp at hi) (by intro i _; exact ⟨rfl, rfl⟩)
      (by intro k hk; simp at hk)
  have hst := render_compute_orbit_loop_stored max_iter center_re center_im generation
    g_generation max_iter.toNat
    { z_re := 0, z_im := 0, orbit_re := orbit_re, orbit_im := orbit_im, iter := 0 } r hr
    (by simp [mandel]) (by intro i hi; simp at hi) (by intro j hj; simp at hj)
    (by intro k hk; simp at hk)
  have h0 : 0 < samples_written r → (r.1.orbit_re 0, r.1.orbit_im 0) = (0, 0) :=
    fun h => by simpa [mandel] using h1 0 h
  refine ⟨r, hr, hst, h1, h2, h0, fun hm hg => ?_, h3⟩
  have hpos : 0 < samples_written r :=
    (hst 0).mpr ⟨by simpa using hm, fun j hj => by
      have : j = 0 := by omega
      rw [this]; exact hg, fun k hk => by omega⟩
  exact ⟨hpos, h0 hpos⟩

/-- C4 (evaluation at centre `(3, 0)`, `max_iter = 64`): the orbit loop leaves
at `iter = 5` through the `break`, having stored 6 samples, yet the thread
publishes `g_orbit_amount = 64`; sample 6 of the published orbit is the
`calloc` zero, not `z_6`. -/
theorem orbit_amount_after_early_stop :
    (render_compute_orbit 64 3 0 calloc calloc 1 (fun _ => 1)).map
        (fun r => (r.1.iter, r.2, samples_written r)) = some (5, LoopExit.escaped, 6)
      ∧ (render_compute_orbit_thread 64 work_center_3 (fun _ => 1) 1 globals_init).map
        (fun G => (G.g_orbit_amount, G.g_orbit_ready, G.g_orbit_re 6, G.g_orbit_im 6))
          = some (64, true, 0, 0)
      ∧ mandel (3, 0) 6 = (218162369067631212, 0) := by
  refine ⟨by decide!, by decide!, by decide!⟩

/-! ### The per-pixel loop of `render_test` -/

/-- The orbit of the centre `(0, 0)` is constantly zero. -/
theorem mandel_zero (k : Nat) : mandel (0, 0) k = (0, 0) := by
  induction k with
  | zero => rfl
  | succ k ih =>
    show cadd (csq (mandel (0, 0) k)) (0, 0) = (0, 0)
    rw [ih]
    simp [cadd, csq, cmul]

/-- The per-pixel loop returns when given `max_iter - iter` passes of fuel, and
whatever it leaves in `zn2` is a squared magnitude that did not pass the escape
test. -/
theorem pixel_loop_returns (max_iter : Int) (work : render_work) (delta_c_re delta_c_im : ℚ) :
    ∀ (fuel : Nat) (s : PixelState),
      max_iter - s.iter ≤ fuel →
      (∀ v, s.zn2 = some v → ¬ v > escape_radius_sq) →
      ∃ s', pixel_loop max_iter work delta_c_re delta_c_im fuel s = some s'
        ∧ (∀ v, s'.zn2 = some v → ¬ v > escape_radius_sq) := by
  intro fuel
  induction fuel with
  | zero =>
    intro s hf hz
    have hc : ¬ s.iter < max_iter := by omega
    exact ⟨s, by simp [pixel_loop, hc], hz⟩
  | succ fuel ih =>
    intro s hf hz
    simp only [pixel_loop]
    split_ifs with hc hclamp hesc hreb
    · exact ih _ (by simp only; push_cast at hf ⊢; omega) hz
    · exact ⟨_, rfl, hz⟩
    · exact ih _ (by simp only; push_cast at hf ⊢; omega)
        (by intro v hv; simp only [Option.some.injEq] at hv; rw [← hv]; exact hesc)
    · exact ih _ (by simp only; push_cast at hf ⊢; omega)
        (by intro v hv; simp only [Option.some.injEq] at hv; rw [← hv]; exact hesc)
    · exact ⟨s, rfl, hz⟩

/-- Once the reference index is clamped the loop can no longer leave through
the `break`: it returns with the loop condition false. -/
theorem pixel_loop_clamped (max_iter : Int) (work : render_work) (delta_c_re delta_c_im : ℚ) :
    ∀ (fuel : Nat) (s : PixelState),
      max_iter - s.iter ≤ fuel →
      (s.iter_orbit : Int) + 1 > work.orbit_amount - 1 →
      ∃ s', pixel_loop max_iter work delta_c_re delta_c_im fuel s = some s'
        ∧ ¬ s'.iter < max_iter ∧ s'.iter_orbit = s.iter_orbit ∧ s'.zn2 = s.zn2 := by
  intro fuel
  induction fuel with
  | zero =>
    intro s hf _
    have hc : ¬ s.iter < max_iter := by omega
    exact ⟨s, by simp [pixel_loop, hc], hc, rfl, rfl⟩
  | succ fuel ih =>
    intro s hf hcl
    by_cases hc : s.iter < max_iter
    · simp only [pixel_loop, hc, hcl, if_true]
      exact ih _ (by simp only; push_cast at hf ⊢; omega) hcl
    · exact ⟨s, by simp [pixel_loop, hc], hc, rfl, rfl⟩

/-- Loop invariant of the per-pixel loop over an exact reference orbit of
centre `c`: after `k` passes `iter = k - 1`, the reference sample plus
`delta_z` is the pixel's own iterate `z_k`, and none of `z_0 .. z_k` passed
the escape test.  If the loop is left with `iter < max_iter`, it is left
through the `break` of pass `iter + 2`, at the first escaping iterate. -/
theorem pixel_loop_escape (max_iter : Int) (work : render_work) (c dc : ℚ × ℚ)
    (horbit : ∀ k : Nat, (k : Int) < work.orbit_amount →
      (work.orbit_re k, work.orbit_im k) = mandel c k) :
    ∀ (fuel : Nat) (s : PixelState) (k : Nat),
      max_iter - s.iter ≤ fuel →
      s.iter + 1 = k →
      cadd (mandel c s.iter_orbit) (s.delta_z_re, s.delta_z_im) = mandel (cadd c dc) k →
      (∀ j, j ≤ k → ¬ norm_sq (mandel (cadd c dc) j) > escape_radius_sq) →
      ∃ s', pixel_loop max_iter work dc.1 dc.2 fuel s = some s'
        ∧ (s'.iter < max_iter →
            norm_sq (mandel (cadd c dc) (s'.iter + 2).toNat) > escape_radius_sq
              ∧ (∀ j, j < (s'.iter + 2).toNat →
                  ¬ norm_sq (mandel (cadd c dc) j) > escape_radius_sq)
              ∧ s.iter ≤ s'.iter) := by
  intro fuel
  induction fuel with
  | zero =>
    intro s k hf _ _ _
    have hc : ¬ s.iter < max_iter := by omega
    exact ⟨s, by simp [pixel_loop, hc], fun h => absurd h hc⟩
  | succ fuel ih =>
    intro s k hf hk hz hno
    by_cases hc : s.iter < max_iter
    · by_cases hcl : (s.iter_orbit : Int) + 1 > work.orbit_amount - 1
      · obtain ⟨s', hs', hn, _, _⟩ :=
          pixel_loop_clamped max_iter work dc.1 dc.2 (fuel + 1) s hf hcl
        exact ⟨s', hs', fun h => absurd h hn⟩
      · have h0 : (work.orbit_re s.iter_orbit, work.orbit_im s.iter_orbit)
            = mandel c s.iter_orbit := horbit _ (by omega)
        have h1 : (work.orbit_re (s.iter_orbit + 1), work.orbit_im (s.iter_orbit + 1))
            = mandel c (s.iter_orbit + 1) := horbit _ (by push_cast; omega)
        have hre0 : work.orbit_re s.iter_orbit = (mandel c s.iter_orbit).1 := by
          rw [← h0]
        have him0 : work.orbit_im s.iter_orbit = (mandel c s.iter_orbit).2 := by
          rw [← h0]
        have hre1 : work.orbit_re (s.iter_orbit + 1) = (mandel c (s.iter_orbit + 1)).1 := by
          rw [← h1]
        have him1 : work.orbit_im (s.iter_orbit + 1) = (mandel c (s.iter_orbit + 1)).2 := by
          rw [← h1]
        -- the new reference sample plus the new `delta_z` is the next pixel iterate
        have hnext : cadd (mandel c (s.iter_orbit + 1))
              (delta_step (work.orbit_re s.iter_orbit) (work.orbit_im s.iter_orbit)
                s.delta_z_re s.delta_z_im dc.1 dc.2)
            = mandel (cadd c dc) (k + 1) := by
          have hz1 := congrArg Prod.fst hz
          have hz2 := congrArg Prod.snd hz
          simp only [cadd] at hz1 hz2
          rw [hre0, him0]
          simp only [mandel, delta_step, cadd, csq, cmul, Prod.mk.injEq, ← hz1, ← hz2]
          constructor <;> ring
        have hkn : (s.iter + 2).toNat = k + 1 := by omega
        simp only [pixel_loop, hc, hcl, if_true, if_false]
        generalize delta_step (work.orbit_re s.iter_orbit) (work.orbit_im s.iter_orbit)
          s.delta_z_re s.delta_z_im dc.1 dc.2 = D at hnext ⊢
        have hn1 : work.orbit_re (s.iter_orbit + 1) + D.1 = (mandel (cadd c dc) (k + 1)).1 := by
          rw [hre1]; exact congrArg Prod.fst hnext
        have hn2 : work.orbit_im (s.iter_orbit + 1) + D.2 = (mandel (cadd c dc) (k + 1)).2 := by
          rw [him1]; exact congrArg Prod.snd hnext
        have hnorm : norm_sq (mandel (cadd c dc) (k + 1))
            = (work.orbit_re (s.iter_orbit + 1) + D.1) * (work.orbit_re (s.iter_orbit + 1) + D.1)
              + (work.orbit_im (s.iter_orbit + 1) + D.2)
                * (work.orbit_im (s.iter_orbit + 1) + D.2) := by
          simp only [norm_sq, ← hn1, ← hn2]
        have hno' : ¬ (work.orbit_re (s.iter_orbit + 1) + D.1)
              * (work.orbit_re (s.iter_orbit + 1) + D.1)
              + (work.orbit_im (s.iter_orbit + 1) + D.2)
                * (work.orbit_im (s.iter_orbit + 1) + D.2) > escape_radius_sq →
            ∀ j, j ≤ k + 1 → ¬ norm_sq (mandel (cadd c dc) j) > escape_radius_sq := by
          intro hesc j hj
          by_cases hj' : j = k + 1
          · subst hj'; rw [hnorm]; exact hesc
          · exact hno j (by omega)
        split_ifs with hesc hreb
        · refine ⟨_, rfl, fun _ => ?_⟩
          simp only [hkn]
          exact ⟨by rw [hnorm]; exact hesc, fun j hj => hno j (by omega), le_refl _⟩
        · obtain ⟨s', hs', hp⟩ := ih
            { delta_z_re := work.orbit_re (s.iter_orbit + 1) + D.1
              delta_z_im := work.orbit_im (s.iter_orbit + 1) + D.2
              iter := s.iter + 1, iter_orbit := 0
              zn2 := some ((work.orbit_re (s.iter_orbit + 1) + D.1)
                  * (work.orbit_re (s.iter_orbit + 1) + D.1)
                + (work.orbit_im (s.iter_orbit + 1) + D.2)
                  * (work.orbit_im (s.iter_orbit + 1) + D.2)) }
            (k + 1) (by simp only; push_cast at hf ⊢; omega) (by simp only; push_cast; omega)
            (by
              simp only [mandel, cadd, zero_add]
              exact Prod.ext hn1 hn2)
            (hno' hesc)
          exact ⟨s', hs', fun h => by
            obtain ⟨a, b, c'⟩ := hp h
            exact ⟨a, b, by simp only at c'; omega⟩⟩
        · obtain ⟨s', hs', hp⟩ := ih
            { delta_z_re := D.1, delta_z_im := D.2
              iter := s.iter + 1, iter_orbit := s.iter_orbit + 1
              zn2 := some ((work.orbit_re (s.iter_orbit + 1) + D.1)
                  * (work.orbit_re (s.iter_orbit + 1) + D.1)
                + (work.orbit_im (s.iter_orbit + 1) + D.2)
                  * (work.orbit_im (s.iter_orbit + 1) + D.2)) }
            (k + 1) (by simp only; push_cast at hf ⊢; omega) (by simp only; push_cast; omega)
            (by simpa using hnext)
            (hno' hesc)
          exact ⟨s', hs', fun h => by
            obtain ⟨a, b, c'⟩ := hp h
            exact ⟨a, b, by simp only at c'; omega⟩⟩
    · exact ⟨s, by simp [pixel_loop, hc], fun h => absurd h hc⟩

/-- For every pixel the per-pixel code of lines 264–327 returns, and `zn2` is
then either unassigned or a squared magnitude that did not pass the escape
test. -/
theorem pixel_iterate_returns (max_iter : Int) (work : render_work) (pixels_done : Nat → Int)
    (x y : Nat) :
    ∃ s, pixel_iterate max_iter work pixels_done x y = some s
      ∧ (∀ v, s.zn2 = some v → ¬ v > escape_radius_sq) := by
  unfold pixel_iterate
  by_cases h : wrap_int (pixels_done (y * WIDTH + x)) = -1
  · simp only [h, if_true]
    exact pixel_loop_returns max_iter work _ _ _ _ (by simp only; omega)
      (by intro v hv; simp at hv)
  · simp only [h, if_false]
    exact ⟨_, rfl, by intro v hv; simp at hv⟩

/-! ### C2: the iteration count and the escaping iterate -/

/-- C2 fails as stated: for the pixel `(0, 0)` of the view centred at `(0, 0)`
with scale `1/100` (cache entry `-1`, exact reference orbit, `max_iter = 64`)
the final count is `n = 3 < 64`, but the pixel's iterate `z_3 = (-436, 123)`
has not escaped. -/
theorem pixel_escape_index_counterexample :
    cache_reset (0 * WIDTH + 0) = -1
      ∧ (∀ k : Nat, (k : Int) < (work_origin 16 16 1).orbit_amount →
          ((work_origin 16 16 1).orbit_re k, (work_origin 16 16 1).orbit_im k)
            = mandel (0, 0) k)
      ∧ (pixel_iterate 64 (work_origin 16 16 1) cache_reset 0 0).map (fun s => s.iter)
          = some 3
      ∧ mandel (cadd (0, 0) (pixel_dx (work_origin 16 16 1) 0, pixel_dy (work_origin 16 16 1) 0)) 3
          = (-436, 123)
      ∧ ¬ norm_sq (mandel (cadd (0, 0)
            (pixel_dx (work_origin 16 16 1) 0, pixel_dy (work_origin 16 16 1) 0)) 3)
          > escape_radius_sq := by
  refine ⟨rfl, ?_, by decide!, by decide!, by decide!⟩
  intro k _
  rw [mandel_zero]
  rfl

/-- C2 (amended): for a pixel whose cache entry is `-1`, over an exact
reference orbit, the per-pixel code returns, and if its final count `n` is
below `max_iter` then the loop was left at the first escaping iterate of the
pixel's own orbit, whose index `k` is larger than `n`:
`|z_k|^2 > R^2` and `|z_j|^2 ≤ R^2` for all `j < k`. -/
theorem pixel_escape_index (max_iter : Int) (work : render_work) (pixels_done : Nat → Int)
    (x y : Nat) (c : ℚ × ℚ)
    (hcache : pixels_done (y * WIDTH + x) = -1)
    (horbit : ∀ k : Nat, (k : Int) < work.orbit_amount →
      (work.orbit_re k, work.orbit_im k) = mandel c k) :
    ∃ s, pixel_iterate max_iter work pixels_done x y = some s
      ∧ (s.iter < max_iter →
          ∃ k : Nat, s.iter < (k : Int)
            ∧ norm_sq (mandel (cadd c (pixel_dx work x, pixel_dy work y)) k) > escape_radius_sq
            ∧ ∀ j, j < k →
                ¬ norm_sq (mandel (cadd c (pixel_dx work x, pixel_dy work y)) j)
                  > escape_radius_sq) := by
  have hw : wrap_int (-1) = -1 := by decide
  obtain ⟨s, hs, hp⟩ := pixel_loop_escape max_iter work c (pixel_dx work x, pixel_dy work y)
    horbit (max_iter - (-1)).toNat
    { delta_z_re := 0, delta_z_im := 0, iter := -1, iter_orbit := 0, zn2 := none } 0
    (by simp only; omega) (by simp) (by simp [mandel, cadd])
    (by
      intro j hj
      have : j = 0 := by omega
      subst this
      simp [mandel, norm_sq, escape_radius_sq, ESCAPE_RADIUS])
  refine ⟨s, ?_, fun h => ?_⟩
  · simp only [pixel_iterate, hcache, hw, if_true]
    exact hs
  · obtain ⟨a, b, c'⟩ := hp h
    exact ⟨(s.iter + 2).toNat, by simp only at c'; omega, a, b⟩

/-- Witness of C2 (amended): the pixel `(0, 0)` of the view centred at `(0, 0)`
with scale `1/100`. -/
theorem pixel_escape_index_witness :
    cache_reset (0 * WIDTH + 0) = -1
      ∧ (∀ k : Nat, (k : Int) < (work_origin 16 16 1).orbit_amount →
          ((work_origin 16 16 1).orbit_re k, (work_origin 16 16 1).orbit_im k)
            = mandel (0, 0) k)
      ∧ ∃ s, pixel_iterate 64 (work_origin 16 16 1) cache_reset 0 0 = some s
          ∧ (s.iter < 64 →
              ∃ k : Nat, s.iter < (k : Int)
                ∧ norm_sq (mandel (cadd (0, 0)
                    (pixel_dx (work_origin 16 16 1) 0, pixel_dy (work_origin 16 16 1) 0)) k)
                  > escape_radius_sq
                ∧ ∀ j, j < k →
                    ¬ norm_sq (mandel (cadd (0, 0)
                        (pixel_dx (work_origin 16 16 1) 0, pixel_dy (work_origin 16 16 1) 0)) j)
                      > escape_radius_sq) :=
  ⟨rfl, fun k _ => by rw [mandel_zero]; rfl,
   pixel_escape_index 64 (work_origin 16 16 1) cache_reset 0 0 (0, 0) rfl
     (fun k _ => by rw [mandel_zero]; rfl)⟩

/-! ### C9: the magnitude fed to the escape colouring -/

/-- C9 (evaluation): for the pixel `(0, 0)` at scale `1/100` the loop breaks on
`z_5` with `iter = 3` and `zn2` still holding `|z_4|^2 = 42116544450 ≤ R^2`;
at scale `10000` it breaks in the first pass with `iter = -1` and `zn2` never
assigned. -/
theorem escape_zn2_not_escaped :
    pixel_iterate 64 (work_origin 16 16 1) cache_reset 0 0
        = some { delta_z_re := 19107558284, delta_z_im := -37532712837, iter := 3,
                 iter_orbit := 5, zn2 := some 42116544450 }
      ∧ (3 : Int) ≠ 64
      ∧ ¬ (42116544450 : ℚ) > escape_radius_sq
      ∧ pixel_iterate 64 { work_origin 16 16 1 with scale := 10000 } cache_reset 0 0
        = some { delta_z_re := -4000000, delta_z_im := -3000000, iter := -1,
                 iter_orbit := 1, zn2 := none } := by
  refine ⟨by decide!, by decide, by decide!, by decide!⟩

/-! ### C5: obsolete tasks -/

/-- A task whose first generation check observes a mismatch stores nothing. -/
theorem render_test_abort_first (escape_color : Int → Option ℚ → Nat) (max_iter : Int)
    (g_generation : Nat → Nat → Int) (pixels_done : Nat → Int) (work : render_work)
    (h : work.generation ≠ g_generation 0 0) :
    render_test escape_color max_iter g_generation pixels_done work = some [] := by
  unfold render_test
  cases ht : work.tile with
  | zero => simp [for_loop]
  | succ n =>
    by_cases hy : work.y + 0 ≥ HEIGHT
    · have hy' : HEIGHT ≤ work.y := by simpa using hy
      simp [for_loop, hy']
    · have hrow : render_row escape_color max_iter g_generation pixels_done work 0 []
          = some (true, []) := by
        simp [render_row, ht, for_loop, h]
      simp only [for_loop, Nat.zero_lt_succ, if_true, hy, if_false, hrow]

/-- C5: a render task whose recorded generation differs from the current
generation (constant during the run) returns and leaves every entry of
`pixels` and of `pixels_done` unchanged. -/
theorem render_test_obsolete (escape_color : Int → Option ℚ → Nat) (max_iter : Int)
    (current : Int) (work : render_work) (st : FrameState)
    (h : work.generation ≠ current) :
    render_test_run escape_color max_iter (fun _ _ => current) work st = some st
      ∧ ∀ st', render_test_run escape_color max_iter (fun _ _ => current) work st = some st' →
          (∀ i, st'.pixels i = st.pixels i) ∧ (∀ i, st'.pixels_done i = st.pixels_done i) := by
  have hrun : render_test_run escape_color max_iter (fun _ _ => current) work st = some st := by
    unfold render_test_run
    rw [render_test_abort_first escape_color max_iter (fun _ _ => current) st.pixels_done work h]
    rfl
  refine ⟨hrun, fun st' hst' => ?_⟩
  rw [hrun] at hst'
  cases hst'
  exact ⟨fun _ => rfl, fun _ => rfl⟩

/-- Witness of C5: a 16 × 16 task recorded under generation 1 run while the
current generation is 2. -/
theorem render_test_obsolete_witness :
    (work_origin 16 16 1).generation ≠ 2
      ∧ render_test_run (fun _ _ => 0) 64 (fun _ _ => 2) (work_origin 16 16 1)
          { pixels := fun _ => 0, pixels_done := cache_reset }
        = some { pixels := fun _ => 0, pixels_done := cache_reset } :=
  ⟨by decide,
   (render_test_obsolete (fun _ _ => 0) 64 2 (work_origin 16 16 1)
      { pixels := fun _ => 0, pixels_done := cache_reset } (by decide)).1⟩

/-! ### `for` loops with a clipping `break` -/

/-- Divisibility by the stride, one stride at a time. -/
theorem mod_stride_iff (d stride : Nat) :
    d % stride = 0 ↔ d = 0 ∨ (stride ≤ d ∧ (d - stride) % stride = 0) := by
  constructor
  · intro hd
    by_cases h0 : d = 0
    · exact Or.inl h0
    · right
      have hdvd : stride ∣ d := Nat.dvd_of_mod_eq_zero hd
      have hle : stride ≤ d := Nat.le_of_dvd (Nat.pos_of_ne_zero h0) hdvd
      refine ⟨hle, Nat.mod_eq_zero_of_dvd ?_⟩
      exact Nat.dvd_sub' hdvd (dvd_refl _)
  · rintro (h0 | ⟨hle, hm⟩)
    · subst h0; simp
    · have : d = (d - stride) + stride := by omega
      rw [this, Nat.add_mod_right]
      exact hm

/-- The loop variable takes exactly the values `i0 + n * stride` below the
bound that are not clipped. -/
theorem mem_loop_indices (bound stride base limit : Nat) (hs : 0 < stride) :
    ∀ (fuel i : Nat), bound - i ≤ fuel → ∀ j,
      j ∈ loop_indices bound stride base limit fuel i
        ↔ i ≤ j ∧ j < bound ∧ base + j < limit ∧ (j - i) % stride = 0 := by
  intro fuel
  induction fuel with
  | zero =>
    intro i hf j
    simp only [loop_indices, List.not_mem_nil, false_iff]
    omega
  | succ fuel ih =>
    intro i hf j
    simp only [loop_indices]
    split_ifs with hb hl
    · simp only [List.not_mem_nil, false_iff]
      omega
    · rw [List.mem_cons, ih (i + stride) (by omega) j]
      constructor
      · rintro (rfl | ⟨h1, h2, h3, h4⟩)
        · exact ⟨le_refl _, hb, by omega, by simp⟩
        · refine ⟨by omega, h2, h3, ?_⟩
          rw [mod_stride_iff]
          right
          refine ⟨by omega, ?_⟩
          have : j - i - stride = j - (i + stride) := by omega
          rw [this]
          exact h4
      · rintro ⟨h1, h2, h3, h4⟩
        rw [mod_stride_iff] at h4
        rcases h4 with h0 | ⟨hle, hm⟩
        · left; omega
        · right
          refine ⟨by omega, h2, h3, ?_⟩
          have : j - (i + stride) = j - i - stride := by omega
          rw [this]
          exact hm
    · simp only [List.not_mem_nil, false_iff]
      omega

/-- The loop variable never takes a value twice. -/
theorem loop_indices_nodup (bound stride base limit : Nat) (hs : 0 < stride) :
    ∀ (fuel i : Nat), bound - i ≤ fuel →
      (loop_indices bound stride base limit fuel i).Nodup := by
  intro fuel
  induction fuel with
  | zero => intro i _; simp [loop_indices]
  | succ fuel ih =>
    intro i hf
    simp only [loop_indices]
    split_ifs with hb hl
    · exact List.nodup_nil
    · refine List.nodup_cons.mpr ⟨?_, ih _ (by omega)⟩
      intro hmem
      have := (mem_loop_indices bound stride base limit hs fuel (i + stride) (by omega) i).mp hmem
      omega
    · exact List.nodup_nil

/-- A loop whose body breaks when clipped and otherwise appends `emit i` to the
trace returns, having appended `emit i` for every index of `loop_indices`. -/
theorem for_loop_emit {α : Type} (bound stride base limit : Nat) (hs : 0 < stride)
    (emit : Nat → List α) (body : Nat → List α → Option (Flow × List α))
    (hbody : ∀ i acc, i < bound →
      body i acc
        = if limit ≤ base + i then some (Flow.brk, acc) else some (Flow.next, acc ++ emit i)) :
    ∀ (fuel i : Nat) (acc : List α), bound - i ≤ fuel →
      for_loop bound stride body fuel i acc
        = some (false, acc ++ (loop_indices bound stride base limit fuel i).flatMap emit) := by
  intro fuel
  induction fuel with
  | zero =>
    intro i acc hf
    have hb : ¬ i < bound := by omega
    simp [for_loop, loop_indices, hb]
  | succ fuel ih =>
    intro i acc hf
    by_cases hb : i < bound
    · by_cases hl : limit ≤ base + i
      · simp [for_loop, loop_indices, hb, hbody i acc hb, hl]
      · simp only [for_loop, loop_indices, hb, hbody i acc hb, hl, if_true, if_false]
        rw [ih (i + stride) (acc ++ emit i) (by omega)]
        simp [List.flatMap_cons, List.append_assoc]
    · simp [for_loop, loop_indices, hb]

/-- Filtering a concatenation of groups of which only the group of `a0` can
hold a match. -/
theorem filter_flatMap_unique {α β : Type} (p : β → Bool) (l : List α) (g : α → List β)
    (a0 : α) (hnd : l.Nodup) (hmem : a0 ∈ l)
    (hother : ∀ a, a ∈ l → a ≠ a0 → ∀ w, w ∈ g a → p w = false) :
    (l.flatMap g).filter p = (g a0).filter p := by
  induction l with
  | nil => simp at hmem
  | cons b l ih =>
    rw [List.flatMap_cons, List.filter_append]
    rw [List.nodup_cons] at hnd
    by_cases hb : b = a0
    · subst hb
      have hrest : (l.flatMap g).filter p = [] := by
        rw [List.filter_eq_nil_iff]
        intro w hw
        rw [List.mem_flatMap] at hw
        obtain ⟨a, ha, hwa⟩ := hw
        have hne : a ≠ b := fun h => hnd.1 (h ▸ ha)
        simp [hother a (List.mem_cons_of_mem _ ha) hne w hwa]
      rw [hrest, List.append_nil]
    · have hfirst : (g b).filter p = [] := by
        rw [List.filter_eq_nil_iff]
        intro w hw
        simp [hother b (List.mem_cons_self _ _) hb w hw]
      have hmem' : a0 ∈ l := by
        rcases List.mem_cons.mp hmem with h | h
        · exact absurd h.symm hb
        · exact h
      rw [hfirst, List.nil_append]
      exact ih hnd.2 hmem' (fun a ha => hother a (List.mem_cons_of_mem _ ha))

/-! ### Closed forms of the loops of `render_test` and of the scheduler -/

/-- The `step_x` loop appends one store per unclipped column of the block. -/
theorem fill_row_eq (work : render_work) (x y step_y color : Nat) (acc : List PixelWrite)
    : fill_row work x y step_y color acc
      = some (false, acc ++ (loop_indices work.step 1 x WIDTH work.step 0).flatMap
          fun step_x => [{ x := x + step_x, y := y + step_y, color := color }]) := by
  unfold fill_row
  exact for_loop_emit work.step 1 x WIDTH Nat.one_pos _ _
    (fun i acc _ => by simp only [ge_iff_le]) work.step 0 acc (by omega)

/-- The `step_y` loop appends the clipped block. -/
theorem fill_block_eq (work : render_work) (x y color : Nat) (acc : List PixelWrite) :
    fill_block work x y color acc = some (false, acc ++ block_writes work.step x y color) := by
  unfold fill_block block_writes
  exact for_loop_emit work.step 1 y HEIGHT Nat.one_pos _ _
    (fun i acc _ => by simp only [ge_iff_le, fill_row_eq]) work.step 0 acc (by omega)

/-- An uncancelled `delta_x` loop appends one block per unclipped sample pixel
of the row. -/
theorem render_row_eq (escape_color : Int → Option ℚ → Nat) (max_iter : Int)
    (g_generation : Nat → Nat → Int) (pixels_done : Nat → Int) (work : render_work)
    (delta_y : Nat) (acc : List PixelWrite) (hstep : 0 < work.step)
    (hgen : ∀ delta_x, g_generation delta_y delta_x = work.generation) :
    render_row escape_color max_iter g_generation pixels_done work delta_y acc
      = some (false, acc ++ (loop_indices work.tile work.step work.x WIDTH work.tile 0).flatMap
          fun delta_x => block_writes work.step (work.x + delta_x) (work.y + delta_y)
            (pixel_color_at escape_color max_iter pixels_done work
              (work.x + delta_x) (work.y + delta_y))) := by
  unfold render_row
  refine for_loop_emit work.tile work.step work.x WIDTH hstep _ _ ?_ work.tile 0 acc (by omega)
  intro i acc _
  obtain ⟨s, hs, _⟩ := pixel_iterate_returns max_iter work pixels_done (work.x + i)
    (work.y + delta_y)
  simp only [hgen, ne_eq, not_true_eq_false, if_false, ge_iff_le, hs, fill_block_eq,
    pixel_color_at]

/-- An uncancelled task with `step ≥ 1` returns, and its stores are
`task_writes`. -/
theorem render_test_eq (escape_color : Int → Option ℚ → Nat) (max_iter : Int)
    (g_generation : Nat → Nat → Int) (pixels_done : Nat → Int) (work : render_work)
    (hstep : 0 < work.step)
    (hgen : ∀ delta_y delta_x, g_generation delta_y delta_x = work.generation) :
    render_test escape_color max_iter g_generation pixels_done work
      = some (task_writes (pixel_color_at escape_color max_iter pixels_done work) work) := by
  unfold render_test task_writes
  rw [for_loop_emit work.tile work.step work.y HEIGHT hstep
    (fun delta_y => (loop_indices work.tile work.step work.x WIDTH work.tile 0).flatMap
      fun delta_x => block_writes work.step (work.x + delta_x) (work.y + delta_y)
        (pixel_color_at escape_color max_iter pixels_done work
          (work.x + delta_x) (work.y + delta_y))) _
    (fun i acc _ => by
      simp only [ge_iff_le,
        render_row_eq escape_color max_iter g_generation pixels_done work i acc hstep
          (hgen i)])
    work.tile 0 [] (by omega)]
  simp

/-- The `x` loop of the scheduler appends one task per tile column. -/
theorem enqueue_row_eq (orbit_re orbit_im : Nat → ℚ) (orbit_amount : Int) (scale : ℚ)
    (generation : Int) (tile step y : Nat) (queue : List render_work) (htile : 0 < tile) :
    enqueue_row orbit_re orbit_im orbit_amount scale generation tile step y queue
      = some (false, queue ++ (loop_indices WIDTH tile 0 WIDTH WIDTH 0).flatMap
          fun x => [make_work orbit_re orbit_im orbit_amount scale generation tile step x y]) := by
  unfold enqueue_row
  refine for_loop_emit WIDTH tile 0 WIDTH htile _ _ ?_ WIDTH 0 queue (by omega)
  intro i acc hi
  have : ¬ WIDTH ≤ 0 + i := by omega
  simp only [this, if_false]

/-- The scheduler's pass for one step enqueues one task per tile, row by row. -/
theorem enqueue_pass_eq (orbit_re orbit_im : Nat → ℚ) (orbit_amount : Int) (scale : ℚ)
    (generation : Int) (step : Nat) (queue : List render_work) :
    enqueue_pass orbit_re orbit_im orbit_amount scale generation step queue
      = some (false, queue ++ (loop_indices HEIGHT (tile_of_step step) 0 HEIGHT HEIGHT 0).flatMap
          fun y => (loop_indices WIDTH (tile_of_step step) 0 WIDTH WIDTH 0).flatMap
            fun x => [make_work orbit_re orbit_im orbit_amount scale generation
              (tile_of_step step) step x y]) := by
  have htile : 0 < tile_of_step step := by
    unfold tile_of_step
    split <;> omega
  unfold enqueue_pass
  refine for_loop_emit HEIGHT (tile_of_step step) 0 HEIGHT htile _ _ ?_ HEIGHT 0 queue (by omega)
  intro i acc hi
  have : ¬ HEIGHT ≤ 0 + i := by omega
  simp only [this, if_false,
    enqueue_row_eq orbit_re orbit_im orbit_amount scale generation _ step i acc htile]

/-- Tasks that all return leave the concatenation of their traces. -/
theorem run_tasks_eq (escape_color : Int → Option ℚ → Nat) (max_iter : Int) (g_generation : Int)
    (pixels_done : Nat → Int) (f : render_work → List PixelWrite) :
    ∀ (tasks : List render_work),
      (∀ work, work ∈ tasks →
        render_test escape_color max_iter (fun _ _ => g_generation) pixels_done work
          = some (f work)) →
      run_tasks escape_color max_iter g_generation pixels_done tasks
        = some (tasks.flatMap f) := by
  intro tasks
  induction tasks with
  | nil => intro _; rfl
  | cons work rest ih =>
    intro h
    simp only [run_tasks, h work (List.mem_cons_self _ _),
      ih (fun w hw => h w (List.mem_cons_of_mem _ hw)), List.flatMap_cons]

/-! ### C10: one pass of the schedule covers the framebuffer exactly once -/

/-- Every store of a block lies in the block and inside the framebuffer, and
carries the block's colour. -/
theorem mem_block_writes (step x y color : Nat) (hstep : 0 < step) (w : PixelWrite)
    (hw : w ∈ block_writes step x y color) :
    x ≤ w.x ∧ w.x < x + step ∧ w.x < WIDTH ∧ y ≤ w.y ∧ w.y < y + step ∧ w.y < HEIGHT
      ∧ w.color = color := by
  simp only [block_writes, List.mem_flatMap, List.mem_singleton,
    mem_loop_indices step 1 y HEIGHT Nat.one_pos step 0 (by omega),
    mem_loop_indices step 1 x WIDTH Nat.one_pos step 0 (by omega)] at hw
  obtain ⟨sy, ⟨_, hsy, hsy', _⟩, sx, ⟨_, hsx, hsx', _⟩, rfl⟩ := hw
  refine ⟨?_, ?_, ?_, ?_, ?_, ?_, rfl⟩ <;> dsimp only <;> omega

/-- Every store of a task lies in the block of one of its sample pixels. -/
theorem mem_task_writes (color : Nat → Nat → Nat) (work : render_work) (hstep : 0 < work.step)
    (w : PixelWrite) (hw : w ∈ task_writes color work) :
    ∃ delta_y delta_x, delta_y < work.tile ∧ delta_y % work.step = 0
      ∧ delta_x < work.tile ∧ delta_x % work.step = 0
      ∧ w ∈ block_writes work.step (work.x + delta_x) (work.y + delta_y)
          (color (work.x + delta_x) (work.y + delta_y)) := by
  simp only [task_writes, List.mem_flatMap,
    mem_loop_indices work.tile work.step work.y HEIGHT hstep work.tile 0 (by omega),
    mem_loop_indices work.tile work.step work.x WIDTH hstep work.tile 0 (by omega)] at hw
  obtain ⟨dy, ⟨_, hdy, _, hdy'⟩, dx, ⟨_, hdx, _, hdx'⟩, hw⟩ := hw
  exact ⟨dy, dx, hdy, by simpa using hdy', hdx, by simpa using hdx', hw⟩

/-- Among the stores of a block, exactly one goes to a given pixel of the
block that lies inside the framebuffer. -/
theorem block_writes_filter (step x y color px py : Nat) (hstep : 0 < step)
    (hx : x ≤ px ∧ px < x + step) (hy : y ≤ py ∧ py < y + step)
    (hpx : px < WIDTH) (hpy : py < HEIGHT) :
    (block_writes step x y color).filter (fun w => decide (w.x = px ∧ w.y = py))
      = [{ x := px, y := py, color := color }] := by
  unfold block_writes
  rw [filter_flatMap_unique _ _ _ (py - y)
    (loop_indices_nodup step 1 y HEIGHT Nat.one_pos step 0 (by omega))
    ((mem_loop_indices step 1 y HEIGHT Nat.one_pos step 0 (by omega) _).mpr
      ⟨by omega, by omega, by omega, Nat.mod_one _⟩)
    (by
      intro sy _ hne w hw
      simp only [List.mem_flatMap, List.mem_singleton] at hw
      obtain ⟨sx, _, rfl⟩ := hw
      simp only [decide_eq_false_iff_not, not_and]
      omega)]
  rw [filter_flatMap_unique _ _ _ (px - x)
    (loop_indices_nodup step 1 x WIDTH Nat.one_pos step 0 (by omega))
    ((mem_loop_indices step 1 x WIDTH Nat.one_pos step 0 (by omega) _).mpr
      ⟨by omega, by omega, by omega, Nat.mod_one _⟩)
    (by
      intro sx _ hne w hw
      simp only [List.mem_singleton] at hw
      subst hw
      simp only [decide_eq_false_iff_not, not_and]
      omega)]
  have h1 : x + (px - x) = px := by omega
  have h2 : y + (py - y) = py := by omega
  simp [h1, h2]

/-- Among the stores of an uncancelled task of the schedule, exactly one goes
to a given framebuffer pixel of its tile, with the colour of the sample pixel
`(px - px mod step, py - py mod step)`. -/
theorem task_writes_filter (color : Nat → Nat → Nat) (work : render_work) (px py : Nat)
    (hts : (work.tile = 16 ∧ work.step = 16) ∨ (work.tile = 8 ∧ work.step = 4)
      ∨ (work.tile = 8 ∧ work.step = 1))
    (hxa : work.x % work.tile = 0) (hya : work.y % work.tile = 0)
    (hx : work.x ≤ px ∧ px < work.x + work.tile) (hy : work.y ≤ py ∧ py < work.y + work.tile)
    (hpx : px < WIDTH) (hpy : py < HEIGHT) :
    (task_writes color work).filter (fun w => decide (w.x = px ∧ w.y = py))
      = [{ x := px, y := py, color := color (px - px % work.step) (py - py % work.step) }] := by
  have hstep : 0 < work.step := by omega
  have hx0 : work.x + ((px - work.x) - (px - work.x) % work.step) = px - px % work.step := by
    rcases hts with ⟨h1, h2⟩ | ⟨h1, h2⟩ | ⟨h1, h2⟩ <;> rw [h1] at hxa hx <;> rw [h2] <;> omega
  have hy0 : work.y + ((py - work.y) - (py - work.y) % work.step) = py - py % work.step := by
    rcases hts with ⟨h1, h2⟩ | ⟨h1, h2⟩ | ⟨h1, h2⟩ <;> rw [h1] at hya hy <;> rw [h2] <;> omega
  unfold task_writes
  rw [filter_flatMap_unique _ _ _ ((py - work.y) - (py - work.y) % work.step)
    (loop_indices_nodup work.tile work.step work.y HEIGHT hstep work.tile 0 (by omega))
    ((mem_loop_indices work.tile work.step work.y HEIGHT hstep work.tile 0 (by omega) _).mpr
      ⟨by omega, by omega, by
        have := Nat.mod_le py work.step
        omega, by
        rcases hts with ⟨h1, h2⟩ | ⟨h1, h2⟩ | ⟨h1, h2⟩ <;> rw [h2] <;> omega⟩)
    (by
      intro dy hdy hne w hw
      rw [mem_loop_indices work.tile work.step work.y HEIGHT hstep work.tile 0 (by omega)] at hdy
      simp only [List.mem_flatMap] at hw
      obtain ⟨dx, _, hw⟩ := hw
      have hb := mem_block_writes _ _ _ _ hstep w hw
      simp only [decide_eq_false_iff_not, not_and]
      intro _
      rcases hts with ⟨h1, h2⟩ | ⟨h1, h2⟩ | ⟨h1, h2⟩ <;> rw [h2] at hb hdy hne <;> omega)]
  rw [filter_flatMap_unique _ _ _ ((px - work.x) - (px - work.x) % work.step)
    (loop_indices_nodup work.tile work.step work.x WIDTH hstep work.tile 0 (by omega))
    ((mem_loop_indices work.tile work.step work.x WIDTH hstep work.tile 0 (by omega) _).mpr
      ⟨by omega, by omega, by
        have := Nat.mod_le px work.step
        omega, by
        rcases hts with ⟨h1, h2⟩ | ⟨h1, h2⟩ | ⟨h1, h2⟩ <;> rw [h2] <;> omega⟩)
    (by
      intro dx hdx hne w hw
      rw [mem_loop_indices work.tile work.step work.x WIDTH hstep work.tile 0 (by omega)] at hdx
      have hb := mem_block_writes _ _ _ _ hstep w hw
      simp only [decide_eq_false_iff_not, not_and]
      intro hwx
      exfalso
      rcases hts with ⟨h1, h2⟩ | ⟨h1, h2⟩ | ⟨h1, h2⟩ <;> rw [h2] at hb hdx hne <;> omega)]
  rw [hx0, hy0]
  exact block_writes_filter work.step _ _ _ px py hstep
    (by have := Nat.mod_lt px hstep; omega) (by have := Nat.mod_lt py hstep; omega) hpx hpy

/-- The three (tile, step) pairs of the schedule. -/
theorem tile_of_step_cases (step : Nat) (hs : step ∈ steps) :
    (tile_of_step step = 16 ∧ step = 16) ∨ (tile_of_step step = 8 ∧ step = 4)
      ∨ (tile_of_step step = 8 ∧ step = 1) := by
  simp only [steps, List.mem_cons, List.mem_singleton, List.not_mem_nil, or_false] at hs
  rcases hs with rfl | rfl | rfl <;> simp [tile_of_step]

/-- The stores of the tasks of one pass, as enqueued by the scheduler: every
store is inside the framebuffer, and exactly one goes to each framebuffer
pixel, with the colour its task computes for the sample pixel. -/
theorem pass_writes_filter (f : render_work → Nat → Nat → Nat) (mk : Nat → Nat → render_work)
    (tile step : Nat)
    (hts : (tile = 16 ∧ step = 16) ∨ (tile = 8 ∧ step = 4) ∨ (tile = 8 ∧ step = 1))
    (hmk : ∀ x y, (mk x y).x = x ∧ (mk x y).y = y ∧ (mk x y).tile = tile ∧ (mk x y).step = step)
    (px py : Nat) (hpx : px < WIDTH) (hpy : py < HEIGHT) :
    (∀ w, w ∈ ((loop_indices HEIGHT tile 0 HEIGHT HEIGHT 0).flatMap fun y =>
          (loop_indices WIDTH tile 0 WIDTH WIDTH 0).flatMap fun x =>
            task_writes (f (mk x y)) (mk x y)) → w.x < WIDTH ∧ w.y < HEIGHT)
      ∧ (((loop_indices HEIGHT tile 0 HEIGHT HEIGHT 0).flatMap fun y =>
          (loop_indices WIDTH tile 0 WIDTH WIDTH 0).flatMap fun x =>
            task_writes (f (mk x y)) (mk x y)).filter
              (fun w => decide (w.x = px ∧ w.y = py))
          = [{ x := px, y := py,
               color := f (mk (px - px % tile) (py - py % tile))
                 (px - px % step) (py - py % step) }]) := by
  have htile : 0 < tile := by omega
  have hstep : 0 < step := by omega
  have hW : WIDTH = 800 := rfl
  have hH : HEIGHT = 600 := rfl
  -- where the stores of the task at `(x, y)` go
  have hbox : ∀ x y w, w ∈ task_writes (f (mk x y)) (mk x y) →
      x ≤ w.x ∧ w.x < x + tile ∧ w.x < WIDTH ∧ y ≤ w.y ∧ w.y < y + tile ∧ w.y < HEIGHT := by
    intro x y w hw
    obtain ⟨h1, h2, h3, h4⟩ := hmk x y
    obtain ⟨dy, dx, hdy, hdy', hdx, hdx', hb⟩ :=
      mem_task_writes _ _ (by rw [h4]; exact hstep) w hw
    have hb' := mem_block_writes _ _ _ _ (by rw [h4]; exact hstep) w hb
    rw [h1, h2, h4] at hb'
    rw [h3] at hdy hdx
    rw [h4] at hdy' hdx'
    rcases hts with ⟨rfl, rfl⟩ | ⟨rfl, rfl⟩ | ⟨rfl, rfl⟩ <;> omega
  constructor
  · intro w hw
    simp only [List.mem_flatMap] at hw
    obtain ⟨y, _, x, _, hw⟩ := hw
    have := hbox x y w hw
    omega
  · rw [filter_flatMap_unique _ _ _ (py - py % tile)
      (loop_indices_nodup HEIGHT tile 0 HEIGHT htile HEIGHT 0 (by omega))
      ((mem_loop_indices HEIGHT tile 0 HEIGHT htile HEIGHT 0 (by omega) _).mpr
        ⟨by omega, by omega, by omega, by
          rcases hts with ⟨rfl, rfl⟩ | ⟨rfl, rfl⟩ | ⟨rfl, rfl⟩ <;> omega⟩)
      (by
        intro y hy hne w hw
        rw [mem_loop_indices HEIGHT tile 0 HEIGHT htile HEIGHT 0 (by omega)] at hy
        simp only [List.mem_flatMap] at hw
        obtain ⟨x, _, hw⟩ := hw
        have := hbox x y w hw
        simp only [decide_eq_false_iff_not, not_and]
        intro _
        rcases hts with ⟨rfl, rfl⟩ | ⟨rfl, rfl⟩ | ⟨rfl, rfl⟩ <;> omega)]
    rw [filter_flatMap_unique _ _ _ (px - px % tile)
      (loop_indices_nodup WIDTH tile 0 WIDTH htile WIDTH 0 (by omega))
      ((mem_loop_indices WIDTH tile 0 WIDTH htile WIDTH 0 (by omega) _).mpr
        ⟨by omega, by omega, by omega, by
          rcases hts with ⟨rfl, rfl⟩ | ⟨rfl, rfl⟩ | ⟨rfl, rfl⟩ <;> omega⟩)
      (by
        intro x hx hne w hw
        rw [mem_loop_indices WIDTH tile 0 WIDTH htile WIDTH 0 (by omega)] at hx
        have := hbox x _ w hw
        simp only [decide_eq_false_iff_not, not_and]
        intro hwx
        exfalso
        rcases hts with ⟨rfl, rfl⟩ | ⟨rfl, rfl⟩ | ⟨rfl, rfl⟩ <;> omega)]
    obtain ⟨h1, h2, h3, h4⟩ := hmk (px - px % tile) (py - py % tile)
    have key := task_writes_filter (f (mk (px - px % tile) (py - py % tile)))
      (mk (px - px % tile) (py - py % tile)) px py
      (by rw [h3, h4]; exact hts)
      (by rw [h1, h3]; rcases hts with ⟨rfl, rfl⟩ | ⟨rfl, rfl⟩ | ⟨rfl, rfl⟩ <;> omega)
      (by rw [h2, h3]; rcases hts with ⟨rfl, rfl⟩ | ⟨rfl, rfl⟩ | ⟨rfl, rfl⟩ <;> omega)
      (by rw [h1, h3]; have := Nat.mod_lt px htile; omega)
      (by rw [h2, h3]; have := Nat.mod_lt py htile; omega) hpx hpy
    rw [h4] at key
    exact key

/-- C10: for each step of the schedule `[16, 4, 1]` (tile `max (step, 8)`) the
scheduler returns the tasks of the pass, these tasks run to completion
uncancelled, no store has `x ≥ WIDTH` or `y ≥ HEIGHT`, and every framebuffer
pixel `(px, py)` is stored exactly once in the pass, with the colour computed
for the sample pixel `(px - px mod step, py - py mod step)`. -/
theorem pass_covers_framebuffer (escape_color : Int → Option ℚ → Nat) (max_iter : Int)
    (pixels_done : Nat → Int) (orbit_re orbit_im : Nat → ℚ) (orbit_amount : Int) (scale : ℚ)
    (generation : Int) (step : Nat) (hs : step ∈ steps)
    (px py : Nat) (hpx : px < WIDTH) (hpy : py < HEIGHT) :
    ∃ tasks trace s,
      enqueue_pass orbit_re orbit_im orbit_amount scale generation step [] = some (false, tasks)
      ∧ run_tasks escape_color max_iter generation pixels_done tasks = some trace
      ∧ (∀ w, w ∈ trace → w.x < WIDTH ∧ w.y < HEIGHT)
      ∧ pixel_iterate max_iter
          (make_work orbit_re orbit_im orbit_amount scale generation (tile_of_step step) step
            (px - px % tile_of_step step) (py - py % tile_of_step step))
          pixels_done (px - px % step) (py - py % step) = some s
      ∧ trace.filter (fun w => decide (w.x = px ∧ w.y = py))
          = [{ x := px, y := py, color := pixel_color escape_color max_iter s }] := by
  have hts := tile_of_step_cases step hs
  have hstep : 0 < step := by omega
  obtain ⟨s, hs', _⟩ := pixel_iterate_returns max_iter
    (make_work orbit_re orbit_im orbit_amount scale generation (tile_of_step step) step
      (px - px % tile_of_step step) (py - py % tile_of_step step))
    pixels_done (px - px % step) (py - py % step)
  have hrun := run_tasks_eq escape_color max_iter generation pixels_done
    (fun work => task_writes (pixel_color_at escape_color max_iter pixels_done work) work)
    ((loop_indices HEIGHT (tile_of_step step) 0 HEIGHT HEIGHT 0).flatMap fun y =>
      (loop_indices WIDTH (tile_of_step step) 0 WIDTH WIDTH 0).flatMap fun x =>
        [make_work orbit_re orbit_im orbit_amount scale generation (tile_of_step step) step x y])
    (by
      intro work hw
      simp only [List.mem_flatMap, List.mem_singleton] at hw
      obtain ⟨y, _, x, _, rfl⟩ := hw
      exact render_test_eq escape_color max_iter _ pixels_done _ hstep (fun _ _ => rfl))
  have hflat : (((loop_indices HEIGHT (tile_of_step step) 0 HEIGHT HEIGHT 0).flatMap fun y =>
      (loop_indices WIDTH (tile_of_step step) 0 WIDTH WIDTH 0).flatMap fun x =>
        [make_work orbit_re orbit_im orbit_amount scale generation (tile_of_step step) step
          x y]).flatMap
        (fun work => task_writes (pixel_color_at escape_color max_iter pixels_done work) work))
      = (loop_indices HEIGHT (tile_of_step step) 0 HEIGHT HEIGHT 0).flatMap fun y =>
          (loop_indices WIDTH (tile_of_step step) 0 WIDTH WIDTH 0).flatMap fun x =>
            task_writes (pixel_color_at escape_color max_iter pixels_done
              (make_work orbit_re orbit_im orbit_amount scale generation (tile_of_step step)
                step x y))
              (make_work orbit_re orbit_im orbit_amount scale generation (tile_of_step step)
                step x y) := by
    simp only [List.flatMap_assoc, List.flatMap_cons, List.flatMap_nil, List.append_nil]
  obtain ⟨hin, hfil⟩ := pass_writes_filter
    (fun work => pixel_color_at escape_color max_iter pixels_done work)
    (fun x y => make_work orbit_re orbit_im orbit_amount scale generation (tile_of_step step)
      step x y)
    (tile_of_step step) step hts (fun _ _ => ⟨rfl, rfl, rfl, rfl⟩) px py hpx hpy
  refine ⟨_, _, s, ?_, hrun, ?_, hs', ?_⟩
  · rw [enqueue_pass_eq]
    rfl
  · rw [hflat]
    exact hin
  · rw [hflat, hfil]
    simp only [pixel_color_at, hs']

/-- Witness of C10: the pixel `(5, 7)` in the pass with step 16 over the
iteration cache after reset and the zero orbit of centre `(0, 0)`. -/
theorem pass_covers_framebuffer_witness :
    16 ∈ steps ∧ 5 < WIDTH ∧ 7 < HEIGHT
      ∧ ∃ tasks trace s,
          enqueue_pass calloc calloc 64 (1 / 100) 1 16 [] = some (false, tasks)
          ∧ run_tasks (fun _ _ => 0) 64 1 cache_reset tasks = some trace
          ∧ (∀ w, w ∈ trace → w.x < WIDTH ∧ w.y < HEIGHT)
          ∧ pixel_iterate 64
              (make_work calloc calloc 64 (1 / 100) 1 (tile_of_step 16) 16
                (5 - 5 % tile_of_step 16) (7 - 7 % tile_of_step 16))
              cache_reset (5 - 5 % 16) (7 - 7 % 16) = some s
          ∧ trace.filter (fun w => decide (w.x = 5 ∧ w.y = 7))
              = [{ x := 5, y := 7, color := pixel_color (fun _ _ => 0) 64 s }] :=
  ⟨by decide, by decide, by decide,
   pass_covers_framebuffer (fun _ _ => 0) 64 cache_reset calloc calloc 64 (1 / 100) 1 16
     (by decide) 5 7 (by decide) (by decide)⟩

/-! ### C11: the iteration cache after a task -/

/-- No run of `render_test` changes the iteration cache. -/
theorem render_test_run_pixels_done (escape_color : Int → Option ℚ → Nat) (max_iter : Int)
    (g_generation : Nat → Nat → Int) (work : render_work) (st st' : FrameState)
    (h : render_test_run escape_color max_iter g_generation work st = some st') :
    st'.pixels_done = st.pixels_done := by
  unfold render_test_run at h
  cases hr : render_test escape_color max_iter g_generation st.pixels_done work with
  | none => simp [hr] at h
  | some trace =>
    simp only [hr, Option.some.injEq] at h
    rw [← h]

/-- C11 (evaluation): after the uncancelled 16 × 16 task at the origin (centre
`(0, 0)`, scale `1/100`, `max_iter = 64`) has computed the pixel `(0, 0)`, whose
cache entry was `-1` and whose final count is 3, the entry `pixels_done[0]` is
still `-1`, and a later task of the same generation covering the pixel runs the
iteration loop for it again (it ends with `iter_orbit = 5`). -/
theorem cache_entry_not_written :
    cache_reset (0 * WIDTH + 0) = -1
      ∧ (pixel_iterate 64 (work_origin 16 16 1) cache_reset 0 0).map (fun s => s.iter)
          = some 3
      ∧ (render_test_run (fun _ _ => 0) 64 (fun _ _ => 1) (work_origin 16 16 1)
            frame_reset).map (fun st => st.pixels_done (0 * WIDTH + 0)) = some (-1)
      ∧ (render_test_run (fun _ _ => 0) 64 (fun _ _ => 1) (work_origin 16 16 1)
            frame_reset).bind
          (fun st => pixel_iterate 64 (work_origin 8 4 1) st.pixels_done 0 0)
          = some { delta_z_re := 19107558284, delta_z_im := -37532712837, iter := 3,
                   iter_orbit := 5, zn2 := some 42116544450 } := by
  refine ⟨rfl, by decide!, by decide!, by decide!⟩

/-! ### C12: reference exhaustion -/

/-- From a clamped state with `iter ≤ max_iter` the loop returns with
`iter = max_iter`, the reference index and `zn2` unchanged. -/
theorem pixel_loop_clamped_count (max_iter : Int) (work : render_work)
    (delta_c_re delta_c_im : ℚ) :
    ∀ (fuel : Nat) (s : PixelState),
      max_iter - s.iter ≤ fuel →
      (s.iter_orbit : Int) + 1 > work.orbit_amount - 1 →
      s.iter ≤ max_iter →
      ∃ s', pixel_loop max_iter work delta_c_re delta_c_im fuel s = some s'
        ∧ s'.iter = max_iter ∧ s'.iter_orbit = s.iter_orbit ∧ s'.zn2 = s.zn2 := by
  intro fuel
  induction fuel with
  | zero =>
    intro s hf _ hle
    have hc : ¬ s.iter < max_iter := by omega
    exact ⟨s, by simp [pixel_loop, hc], by omega, rfl, rfl⟩
  | succ fuel ih =>
    intro s hf hcl hle
    by_cases hc : s.iter < max_iter
    · simp only [pixel_loop, hc, hcl, if_true]
      exact ih _ (by simp only; push_cast at hf ⊢; omega) hcl (by simp only; omega)
    · exact ⟨s, by simp [pixel_loop, hc], by omega, rfl, rfl⟩

/-- C12 fails as stated: over the two-sample reference orbit of centre
`(1000001, 0)`, the pixel `(399, 300)` at scale 1 (`delta_c = (-1, 0)`) is
clamped from its second pass on (`iter_orbit = 1 = orbit_amount - 1`); on that
clamped step `Z_last + dZ = (-1000001, 0)` has squared magnitude above `R^2`,
yet the loop does not stop and the final count is `max_iter = 64`.  (The
first conjunct: the orbit loop stores exactly these two samples for that
centre; the second: the state after the pixel's first pass.) -/
theorem exhausted_escape_counterexample :
    (render_compute_orbit 64 1000001 0 calloc calloc 1 (fun _ => 1)).map
        (fun r => (samples_written r, r.1.orbit_re 0, r.1.orbit_im 0, r.1.orbit_re 1,
          r.1.orbit_im 1)) = some (2, 0, 0, 1000001, 0)
      ∧ pixel_iterate 0 work_short_orbit cache_reset 399 300
        = some { delta_z_re := -1, delta_z_im := 0, iter := 0, iter_orbit := 1,
                 zn2 := some 1000000000000 }
      ∧ ((1 : Nat) : Int) + 1 > work_short_orbit.orbit_amount - 1
      ∧ delta_step (work_short_orbit.orbit_re 1) (work_short_orbit.orbit_im 1) (-1) 0
          (pixel_dx work_short_orbit 399) (pixel_dy work_short_orbit 300) = (-2000002, 0)
      ∧ norm_sq (cadd (work_short_orbit.orbit_re 1, work_short_orbit.orbit_im 1) (-2000002, 0))
          > escape_radius_sq
      ∧ pixel_iterate 64 work_short_orbit cache_reset 399 300
        = some { delta_z_re := -1, delta_z_im := 0, iter := 64, iter_orbit := 1,
                 zn2 := some 1000000000000 }
      ∧ ¬ ((64 : Int) < 64) := by
  refine ⟨by decide!, by decide!, by decide, by decide!, by decide!, by decide!, by decide⟩

/-- C12 (amended): on a clamped step (`iter_orbit + 1 > orbit_amount - 1`,
`iter < max_iter`) the loop updates `delta_z` with the sample at the held
index, counts the iteration and keeps the index, without an escape test; from
then on it cannot leave through the `break`, and it returns with the final
count `iter = max_iter`, whatever the magnitude of `Z_last + dZ`. -/
theorem pixel_loop_exhausted (max_iter : Int) (work : render_work)
    (delta_c_re delta_c_im : ℚ) (fuel : Nat) (s : PixelState)
    (hfuel : max_iter - s.iter ≤ fuel + 1)
    (hclamp : (s.iter_orbit : Int) + 1 > work.orbit_amount - 1)
    (hiter : s.iter < max_iter) :
    pixel_loop max_iter work delta_c_re delta_c_im (fuel + 1) s
        = pixel_loop max_iter work delta_c_re delta_c_im fuel
            { delta_z_re := (delta_step (work.orbit_re s.iter_orbit)
                (work.orbit_im s.iter_orbit) s.delta_z_re s.delta_z_im
                delta_c_re delta_c_im).1
              delta_z_im := (delta_step (work.orbit_re s.iter_orbit)
                (work.orbit_im s.iter_orbit) s.delta_z_re s.delta_z_im
                delta_c_re delta_c_im).2
              iter := s.iter + 1, iter_orbit := s.iter_orbit, zn2 := s.zn2 }
      ∧ ∃ s', pixel_loop max_iter work delta_c_re delta_c_im (fuel + 1) s = some s'
          ∧ s'.iter = max_iter ∧ s'.iter_orbit = s.iter_orbit ∧ s'.zn2 = s.zn2 := by
  refine ⟨by simp only [pixel_loop, hiter, hclamp, if_true], ?_⟩
  exact pixel_loop_clamped_count max_iter work delta_c_re delta_c_im (fuel + 1) s
    (by push_cast; omega) hclamp (by omega)

/-- Witness of C12 (amended): the state of the pixel `(399, 300)` over the
two-sample orbit after its first pass, with `max_iter = 64`. -/
theorem pixel_loop_exhausted_witness :
    (64 : Int) - (0 : Int) ≤ ((63 : Nat) : Int) + 1
      ∧ ((1 : Nat) : Int) + 1 > work_short_orbit.orbit_amount - 1
      ∧ (0 : Int) < 64
      ∧ ∃ s', pixel_loop 64 work_short_orbit (-1) 0 (63 + 1)
            { delta_z_re := -1, delta_z_im := 0, iter := 0, iter_orbit := 1,
              zn2 := some 1000000000000 } = some s'
          ∧ s'.iter = 64 ∧ s'.iter_orbit = 1 ∧ s'.zn2 = some 1000000000000 :=
  ⟨by decide, by decide, by decide,
   (pixel_loop_exhausted 64 work_short_orbit (-1) 0 63
      { delta_z_re := -1, delta_z_im := 0, iter := 0, iter_orbit := 1,
        zn2 := some 1000000000000 } (by decide) (by decide) (by decide)).2⟩

/-! ### C13: the reads of the reference orbit -/

/-- Dropping the recorded reads from `pixel_loop_reads` gives `pixel_loop`. -/
theorem pixel_loop_reads_fst (max_iter : Int) (work : render_work)
    (delta_c_re delta_c_im : ℚ) :
    ∀ (fuel : Nat) (s : PixelState) (reads : List Nat),
      (pixel_loop_reads max_iter work delta_c_re delta_c_im fuel s reads).map Prod.fst
        = pixel_loop max_iter work delta_c_re delta_c_im fuel s := by
  intro fuel
  induction fuel with
  | zero =>
    intro s reads
    simp only [pixel_loop_reads, pixel_loop]
    split_ifs <;> rfl
  | succ fuel ih =>
    intro s reads
    simp only [pixel_loop_reads, pixel_loop]
    split_ifs
    · exact ih _ _
    · rfl
    · exact ih _ _
    · exact ih _ _
    · rfl

/-- Dropping the recorded reads from `pixel_iterate_reads` gives
`pixel_iterate`. -/
theorem pixel_iterate_reads_fst (max_iter : Int) (work : render_work)
    (pixels_done : Nat → Int) (x y : Nat) :
    (pixel_iterate_reads max_iter work pixels_done x y).map Prod.fst
      = pixel_iterate max_iter work pixels_done x y := by
  unfold pixel_iterate_reads pixel_iterate
  by_cases h : wrap_int (pixels_done (y * WIDTH + x)) = -1
  · simp only [h, if_true]
    exact pixel_loop_reads_fst max_iter work _ _ _ _ _
  · simp only [h, if_false]
    rfl

/-- Loop invariant `iter_orbit ≤ orbit_amount - 1`: started below the bound
with all earlier reads in bounds, the loop returns with every read in bounds
and the final index below the bound. -/
theorem pixel_loop_reads_bound (max_iter : Int) (work : render_work)
    (delta_c_re delta_c_im : ℚ) (hamount : 1 ≤ work.orbit_amount) :
    ∀ (fuel : Nat) (s : PixelState) (reads : List Nat),
      max_iter - s.iter ≤ fuel →
      (s.iter_orbit : Int) ≤ work.orbit_amount - 1 →
      (∀ i, i ∈ reads → (i : Int) ≤ work.orbit_amount - 1) →
      ∃ r, pixel_loop_reads max_iter work delta_c_re delta_c_im fuel s reads = some r
        ∧ (∀ i, i ∈ r.2 → (i : Int) ≤ work.orbit_amount - 1)
        ∧ (r.1.iter_orbit : Int) ≤ work.orbit_amount - 1 := by
  intro fuel
  induction fuel with
  | zero =>
    intro s reads hf hs hr
    have hc : ¬ s.iter < max_iter := by omega
    exact ⟨(s, reads), by simp [pixel_loop_reads, hc], hr, hs⟩
  | succ fuel ih =>
    intro s reads hf hs hr
    have hr1 : ∀ i, i ∈ reads ++ [s.iter_orbit] → (i : Int) ≤ work.orbit_amount - 1 := by
      intro i hi
      rcases List.mem_append.mp hi with h | h
      · exact hr i h
      · rw [List.mem_singleton] at h
        rw [h]
        exact hs
    have hr2 : ¬ (s.iter_orbit : Int) + 1 > work.orbit_amount - 1 →
        ∀ i, i ∈ reads ++ [s.iter_orbit, s.iter_orbit + 1] →
          (i : Int) ≤ work.orbit_amount - 1 := by
      intro hcl i hi
      rcases List.mem_append.mp hi with h | h
      · exact hr i h
      · simp only [List.mem_cons, List.mem_singleton, List.not_mem_nil, or_false] at h
        rcases h with h | h
        · rw [h]; exact hs
        · rw [h]; push_cast; omega
    simp only [pixel_loop_reads]
    split_ifs with hc hcl hesc hreb
    · exact ih _ _ (by simp only; push_cast at hf ⊢; omega) hs hr1
    · exact ⟨_, rfl, hr2 hcl, by simp only; push_cast; omega⟩
    · exact ih _ _ (by simp only; push_cast at hf ⊢; omega)
        (by simp only; push_cast; omega) (hr2 hcl)
    · exact ih _ _ (by simp only; push_cast at hf ⊢; omega)
        (by simp only; push_cast; omega) (hr2 hcl)
    · exact ⟨(s, reads), rfl, hr, hs⟩

/-- C13: for every render task with `orbit_amount ≥ 1` and every pixel, the
per-pixel code returns, every index at which it reads `orbit_re` and
`orbit_im` (the reference index at the top of each iteration, the incremented
index, and index 0 after a rebase) satisfies `0 ≤ i ≤ orbit_amount - 1`, and
so does the reference index it ends with. -/
theorem orbit_reads_in_bounds (max_iter : Int) (work : render_work)
    (pixels_done : Nat → Int) (x y : Nat) (hamount : 1 ≤ work.orbit_amount) :
    ∃ s reads,
      pixel_iterate_reads max_iter work pixels_done x y = some (s, reads)
      ∧ pixel_iterate max_iter work pixels_done x y = some s
      ∧ (∀ i, i ∈ reads → 0 ≤ (i : Int) ∧ (i : Int) ≤ work.orbit_amount - 1)
      ∧ 0 ≤ (s.iter_orbit : Int) ∧ (s.iter_orbit : Int) ≤ work.orbit_amount - 1 := by
  have key : ∃ r, pixel_iterate_reads max_iter work pixels_done x y = some r
      ∧ (∀ i, i ∈ r.2 → (i : Int) ≤ work.orbit_amount - 1)
      ∧ (r.1.iter_orbit : Int) ≤ work.orbit_amount - 1 := by
    unfold pixel_iterate_reads
    by_cases h : wrap_int (pixels_done (y * WIDTH + x)) = -1
    · simp only [h, if_true]
      exact pixel_loop_reads_bound max_iter work _ _ hamount _ _ []
        (by simp only; omega) (by simp only; push_cast; omega)
        (by intro i hi; simp at hi)
    · simp only [h, if_false]
      exact ⟨_, rfl, by intro i hi; simp at hi, by simp only; push_cast; omega⟩
  obtain ⟨⟨s, reads⟩, hr, hb, hs⟩ := key
  have hfst := pixel_iterate_reads_fst max_iter work pixels_done x y
  rw [hr] at hfst
  exact ⟨s, reads, hr, hfst.symm, fun i hi => ⟨Int.natCast_nonneg i, hb i hi⟩,
    Int.natCast_nonneg _, hs⟩

/-- Witness of C13: the pixel `(0, 0)` of the task at the origin over the
64-sample orbit of centre `(0, 0)`. -/
theorem orbit_reads_in_bounds_witness :
    1 ≤ (work_origin 16 16 1).orbit_amount
      ∧ ∃ s reads,
          pixel_iterate_reads 64 (work_origin 16 16 1) cache_reset 0 0 = some (s, reads)
          ∧ pixel_iterate 64 (work_origin 16 16 1) cache_reset 0 0 = some s
          ∧ (∀ i, i ∈ reads →
              0 ≤ (i : Int) ∧ (i : Int) ≤ (work_origin 16 16 1).orbit_amount - 1)
          ∧ 0 ≤ (s.iter_orbit : Int)
          ∧ (s.iter_orbit : Int) ≤ (work_origin 16 16 1).orbit_amount - 1 :=
  ⟨by decide, orbit_reads_in_bounds 64 (work_origin 16 16 1) cache_reset 0 0 (by decide)⟩

end Perturbation
